import Mathlib

/-!
# Verification of the Holochain DHT core against its specification

A shallow embedding, in Lean 4, of the parts of the Holochain repository
that the specification's claims are about:

* `holo_hash/src/hash.rs` — typed hashes, raw-byte constructor, DHT location;
* `kitsune_p2p/dht/src/arq.rs` — quantized arc requantization;
* `kitsune_p2p/dht/src/coords.rs` — telescoping time windows;
* `kitsune_p2p/dht/src/region/region_set.rs` — region-set diff;
* `types/src/dht_op.rs` — `produce_ops_from_element`;
* `holochain/src/core/workflow/genesis.rs` — the genesis workflow;
* `holochain/src/core/workflow/integrate_dht_ops_workflow.rs` — integration;
* `holochain/src/core/state/cascade.rs` — the read cascade.

Machine integers (`u32`) are modelled as `Nat` with explicit reduction
modulo `2 ^ 32` wherever the Rust code performs wrapping arithmetic.
Rust panics and `todo!()` markers are modelled as explicit error values so
that every function is total.  Cryptographic hash functions are passed as
explicit parameters of the model: nothing in the claims depends on a
hash's value, only on its use as a key.
-/

namespace Holochain

/-! ## C1 component: `holo_hash/src/hash.rs`

A `HoloHash` holds a vector of 36 bytes: a 32-byte blake2b digest followed
by 4 bytes of DHT location.  `from_raw_bytes_and_type` panics unless the
vector is exactly 36 bytes long; the panic is modelled as `none`.
Bytes are modelled as `Nat` values; `u32` addition in `bytes_to_loc`
reduces modulo `2 ^ 32`.
-/

/-- The hash kinds used by the repository (`holo_hash` primitive types). -/
inductive HashType where
  | Agent | Entry | Header | DhtOp | Dna | Wasm | NetId
  deriving DecidableEq, Repr

/-- Model of the `HoloHash<T>` struct: the raw 36-byte vector plus a type. -/
structure HoloHash where
  hash : List Nat
  hash_type : HashType
  deriving DecidableEq, Repr

/-- `bytes_to_loc`: interpret 4 bytes as a little-endian u32
(`hash.rs`, lines 95-100). -/
def bytes_to_loc (bytes : List Nat) : Nat :=
  (bytes.getD 0 0
    + bytes.getD 1 0 * 2 ^ 8
    + bytes.getD 2 0 * 2 ^ 16
    + bytes.getD 3 0 * 2 ^ 24) % 2 ^ 32

/-- `HoloHash::from_raw_bytes_and_type` (`hash.rs`, lines 19-28): requires
exactly 36 bytes, panicking (here: `none`) on any other length. -/
def from_raw_bytes_and_type (hash : List Nat) (hash_type : HashType) :
    Option HoloHash :=
  if hash.length = 36 then some ⟨hash, hash_type⟩ else none

/-- `HoloHash::get_loc` (`hash.rs`, lines 54-56): the location is the
little-endian u32 read from the trailing 4 bytes of the 36-byte vector. -/
def HoloHash.get_loc (h : HoloHash) : Nat :=
  bytes_to_loc (h.hash.drop (h.hash.length - 4))

/-- `HoloHash::get_bytes` (`hash.rs`): the core 32 bytes without the
4 location bytes. -/
def HoloHash.get_bytes (h : HoloHash) : List Nat :=
  h.hash.take (h.hash.length - 4)

/-! ## C7/C8 component: `kitsune_p2p/dht/src/arq.rs` -/

/-- The quantized arc `Arq`: start location, power, count
(`arq.rs`, lines 50-61; the `Offset` newtype around the count is
transparent here). -/
structure Arq where
  start : Nat
  power : Nat
  count : Nat
  deriving DecidableEq, Repr

/-- Free function `requantize` (`arq.rs`, lines 338-351).  When moving to a
higher power the count must divide evenly; when moving to a lower (or equal)
power the count is multiplied, with u32 wrapping on overflow.  Powers are
`u8` in the source; `2u32.pow` of a too-large exponent also wraps. -/
def requantize (old_power : Nat) (old_count : Nat) (new_power : Nat) :
    Option (Nat × Nat) :=
  if old_power < new_power then
    let factor := 2 ^ (new_power - old_power) % 2 ^ 32
    let count := old_count / factor
    if old_count = count * factor then some (new_power, count) else none
  else
    some (new_power, old_count * (2 ^ (old_power - new_power) % 2 ^ 32) % 2 ^ 32)

/-- `Arq::requantize` (`arq.rs`, lines 114-120): requantize the arc's
power/count, keeping the start. -/
def Arq.requantize (a : Arq) (power : Nat) : Option Arq :=
  (Holochain.requantize a.power a.count power).map fun pc =>
    { start := a.start, power := pc.1, count := pc.2 }

/-! ## C8 component: `kitsune_p2p/dht/src/coords.rs`

Space/time coordinates, segments, the `Topology` and its
`telescoping_times`.  All `u32` arithmetic is `Nat` with explicit
wrapping where the source wraps.
-/

/-- An interval in space or time, in tree coordinates: length `2 ^ power`,
left edge at `offset * 2 ^ power` (`coords.rs`, `Segment<C>`). -/
structure Segment where
  power : Nat
  offset : Nat
  deriving DecidableEq, Repr

/-- Time segments (`Segment<TimeCoord>`). -/
abbrev TimeSegment := Segment

/-- Space segments (`Segment<SpaceCoord>`). -/
abbrev SpaceSegment := Segment

/-- `Segment::length`: `2u64.pow(self.power)`. -/
def Segment.length (s : Segment) : Nat := 2 ^ s.power

/-- `Segment::bounds`, first component: left edge `offset * length`. -/
def Segment.boundsLeft (s : Segment) : Nat := s.offset * s.length

/-- A dimension of the quantized spacetime (`coords.rs`, `Dimension`). -/
structure Dimension where
  quantum : Nat
  bit_depth : Nat
  deriving DecidableEq, Repr

/-- `Dimension::identity`: quantum 1. -/
def Dimension.identity : Dimension := ⟨1, 32⟩

/-- `Dimension::standard_time`: 5 minutes in microseconds. -/
def Dimension.standard_time : Dimension := ⟨1000000 * 60 * 5, 27⟩

/-- Constants fixed for all time trees of a network
(`coords.rs`, `Topology`).  Timestamps are microseconds as `Int`. -/
structure Topology where
  space : Dimension
  time : Dimension
  time_origin : Int
  deriving DecidableEq, Repr

/-- `Topology::identity`. -/
def Topology.identity (time_origin : Int) : Topology :=
  ⟨Dimension.identity, Dimension.identity, time_origin⟩

/-- `Topology::time_coord`: clamp `t - origin` at 0, divide by the time
quantum, and cast to u32 (wrapping). -/
def Topology.time_coord (topo : Topology) (t : Int) : Nat :=
  (t - topo.time_origin).toNat / topo.time.quantum % 2 ^ 32

/-- `u32::leading_zeros`, for `n < 2 ^ 32`: 32 minus the bit length,
computed by counting the powers of two not exceeding `n`. -/
def leadingZeros32 (n : Nat) : Nat :=
  32 - ((List.range 32).filter (fun i => 2 ^ i ≤ n)).length

/-- The loop body of `Topology::telescoping_times` (`coords.rs`,
lines 228-243), iterated `k` times over the mutable state
`(seg.power, seg.offset, now, times)`.  `now &= !mask; now <<= 1` is
`now % 2 ^ 31 * 2`; `now & mask > 0` is `2 ^ 31 ≤ now`. -/
def ttLoop : Nat → Nat → Nat → Nat → List TimeSegment → List TimeSegment
  | 0, _, _, _, times => times
  | k + 1, power, offset, now, times =>
    let power := power - 1
    let offset := offset * 2
    let now := now % 2 ^ 31 * 2
    let times := times ++ [⟨power, offset⟩]
    let offset := offset + 1
    if 2 ^ 31 ≤ now then
      ttLoop k power (offset + 1) now (times ++ [⟨power, offset⟩])
    else
      ttLoop k power offset now times

/-- `Topology::telescoping_times` (`coords.rs`, lines 218-247): the list of
exponentially shrinking time windows covering origin..now.  The mutable
`now` variable of the source is the quantized coordinate plus one. -/
def Topology.telescoping_times (topo : Topology) (now : Int) : List TimeSegment :=
  let n := (topo.time_coord now + 1) % 2 ^ 32
  if n = 1 then []
  else
    let zs := leadingZeros32 n
    ttLoop (32 - zs - 1) (32 - zs - 1) 0 (n * 2 ^ zs % 2 ^ 32) []

/-! ## C8 component: `kitsune_p2p/dht/src/region/region_set.rs`

The region-set diff.  `RegionSetXtcs::diff` in the source is
`self.rectify(other, topo); todo!("pull out the regions which are
different")`: whatever `rectify` does, the `todo!` panics unconditionally
before any region is returned.  The panic is modelled as an explicit
error value, so `diff` is the constant function returning that error.
-/

/-- Per-region aggregate data (xor-hash, size, count). -/
structure RegionData where
  hash : Nat
  size : Nat
  count : Nat
  deriving DecidableEq, Repr

/-- Region coordinates: a space segment crossed with a time segment. -/
structure RegionCoords where
  space : SpaceSegment
  time : TimeSegment
  deriving DecidableEq, Repr

/-- A rectangle of spacetime together with its aggregate data. -/
structure Region where
  coords : RegionCoords
  data : RegionData
  deriving DecidableEq, Repr

/-- A set of arqs (only its equality matters to `rectify`/`diff`). -/
structure ArqSet where
  arqs : List Arq
  deriving DecidableEq, Repr

/-- `RegionCoordSetXtcs`: generating parameters of an XTCS region set. -/
structure RegionCoordSetXtcs where
  max_time : Int
  arq_set : ArqSet
  deriving DecidableEq, Repr

/-- `RegionSetXtcs`: coords plus the 2D data grid (outer: space segments,
inner: time segments). -/
structure RegionSetXtcs where
  coords : RegionCoordSetXtcs
  data : List (List RegionData)
  deriving DecidableEq, Repr

/-- `RegionSetXtcs::empty`. -/
def RegionSetXtcs.empty : RegionSetXtcs :=
  ⟨⟨0, ⟨[]⟩⟩, []⟩

/-- Errors and panics of the gossip region code
(`error.rs` `GossipError`, plus the `todo!` panic as an explicit value). -/
inductive GossipError where
  | ArqSetMismatchForDiff
  | todoPanic (msg : String)
  deriving DecidableEq, Repr

/-- `RegionSetXtcs::diff` (`region_set.rs`, lines 142-147).  The source
body runs `rectify` (its result is discarded) and then hits
`todo!("pull out the regions which are different")`, so every call
panics before producing a region list; the panic is the returned error. -/
def RegionSetXtcs.diff (_self _other : RegionSetXtcs) :
    Except GossipError (List Region) :=
  Except.error (GossipError.todoPanic "pull out the regions which are different")

/-- `RegionSet`: the enum wrapping the XTCS representation. -/
inductive RegionSet where
  | Xtcs (set : RegionSetXtcs)
  deriving DecidableEq, Repr

/-- `RegionSet::diff` (`region_set.rs`, lines 170-181): dispatch to
`RegionSetXtcs::diff`. -/
def RegionSet.diff (a b : RegionSet) : Except GossipError (List Region) :=
  match a, b with
  | RegionSet.Xtcs left, RegionSet.Xtcs right => left.diff right

/-! ## C6 component: `holochain/src/core/workflow/genesis.rs`

The genesis workflow.  The `Entry` enum it consumes
(`holochain_types::entry::Entry`) is modelled from the two variants the
workflow constructs; the source chain is the ordered list of committed
entries (`put_entry` appends). -/

namespace Genesis

/-- The entries the genesis workflow commits (`Entry::Dna`,
`Entry::AgentKey` in `genesis.rs`). -/
inductive Entry where
  | Dna (dna : Nat)
  | AgentKey (agent : Nat)
  deriving DecidableEq, Repr

/-- The source chain as seen by genesis: committed entries in order. -/
structure SourceChain where
  entries : List Entry
  deriving DecidableEq, Repr

/-- `source_chain.put_entry`: append one entry-bearing record. -/
def SourceChain.put_entry (sc : SourceChain) (e : Entry) : SourceChain :=
  ⟨sc.entries ++ [e]⟩

/-- Genesis workflow errors (`WorkflowError::AgentInvalid`). -/
inductive WorkflowError where
  | AgentInvalid (agent : Nat)
  deriving DecidableEq, Repr

/-- `GenesisWorkflow::workflow` (`genesis.rs`, lines 31-73): check the
DPKI response, then commit the `Dna` entry followed by the `AgentKey`
entry.  No other record is committed. -/
def workflow (dpki_response : String) (dna : Nat) (agent_hash : Nat)
    (source_chain : SourceChain) : Except WorkflowError SourceChain :=
  if dpki_response = "INVALID" then
    Except.error (WorkflowError.AgentInvalid agent_hash)
  else
    Except.ok ((source_chain.put_entry (Entry.Dna dna)).put_entry
      (Entry.AgentKey agent_hash))

end Genesis

/-! ## C2/C3 component: the record model and `types/src/dht_op.rs`

Hashes are opaque identifiers (`Nat`); entry contents are opaque
(`Nat`).  The header variants and their fields are modelled from their
use sites in `types/src/dht_op.rs`, `types/src/header.rs` and the
integration workflow.  Cryptographic hashing of headers and entries is
an abstract `HashModel` passed explicitly. -/

abbrev HeaderHash := Nat

abbrev EntryHash := Nat

abbrev AgentHash := Nat

abbrev Signature := Nat

/-- Opaque entry content (`Entry` in `holochain_zome_types`). -/
abbrev Entry := Nat

/-- `IntendedFor` on an `EntryUpdate`: whether the update replaces the
header or the entry (integration-workflow vintage, no payload). -/
inductive IntendedFor where
  | Header
  | Entry
  deriving DecidableEq, Repr

/-- `header::EntryCreate`: a header creating a new entry. -/
structure EntryCreate where
  author : AgentHash
  timestamp : Nat
  header_seq : Nat
  prev_header : HeaderHash
  entry_type : Nat
  entry_hash : EntryHash
  deriving DecidableEq, Repr

/-- `header::EntryUpdate`: a header replacing an earlier entry/header. -/
structure EntryUpdate where
  author : AgentHash
  timestamp : Nat
  header_seq : Nat
  prev_header : HeaderHash
  intended_for : IntendedFor
  replaces_address : HeaderHash
  entry_type : Nat
  entry_hash : EntryHash
  deriving DecidableEq, Repr

/-- `header::ElementDelete`: a header deleting an element. -/
structure ElementDelete where
  author : AgentHash
  timestamp : Nat
  header_seq : Nat
  prev_header : HeaderHash
  removes_address : HeaderHash
  deriving DecidableEq, Repr

/-- `header::LinkAdd`. -/
structure LinkAdd where
  author : AgentHash
  timestamp : Nat
  header_seq : Nat
  prev_header : HeaderHash
  base_address : EntryHash
  target_address : EntryHash
  tag : Nat
  deriving DecidableEq, Repr

/-- `header::LinkRemove`. -/
structure LinkRemove where
  author : AgentHash
  timestamp : Nat
  header_seq : Nat
  prev_header : HeaderHash
  base_address : EntryHash
  link_add_address : HeaderHash
  deriving DecidableEq, Repr

/-- `header::Dna`: first header of every chain (opaque payload). -/
structure DnaHeader where
  author : AgentHash
  timestamp : Nat
  dna_hash : Nat
  deriving DecidableEq, Repr

/-- `header::AgentValidationPkg` (opaque payload). -/
structure AgentValidationPkg where
  author : AgentHash
  timestamp : Nat
  membrane_proof : Nat
  deriving DecidableEq, Repr

/-- `header::InitZomesComplete`. -/
structure InitZomesComplete where
  author : AgentHash
  timestamp : Nat
  deriving DecidableEq, Repr

/-- `header::ChainOpen`. -/
structure ChainOpen where
  author : AgentHash
  timestamp : Nat
  prev_dna_hash : Nat
  deriving DecidableEq, Repr

/-- `header::ChainClose`. -/
structure ChainClose where
  author : AgentHash
  timestamp : Nat
  new_dna_hash : Nat
  deriving DecidableEq, Repr

/-- The `Header` enum, with the ten variants matched by
`produce_ops_from_element`. -/
inductive Header where
  | Dna (h : DnaHeader)
  | AgentValidationPkg (h : AgentValidationPkg)
  | InitZomesComplete (h : InitZomesComplete)
  | ChainOpen (h : ChainOpen)
  | ChainClose (h : ChainClose)
  | EntryCreate (h : EntryCreate)
  | EntryUpdate (h : EntryUpdate)
  | ElementDelete (h : ElementDelete)
  | LinkAdd (h : LinkAdd)
  | LinkRemove (h : LinkRemove)
  deriving DecidableEq, Repr

/-- `Header::author`. -/
def Header.author : Header → AgentHash
  | Header.Dna h => h.author
  | Header.AgentValidationPkg h => h.author
  | Header.InitZomesComplete h => h.author
  | Header.ChainOpen h => h.author
  | Header.ChainClose h => h.author
  | Header.EntryCreate h => h.author
  | Header.EntryUpdate h => h.author
  | Header.ElementDelete h => h.author
  | Header.LinkAdd h => h.author
  | Header.LinkRemove h => h.author

/-- `Header::timestamp`. -/
def Header.timestamp : Header → Nat
  | Header.Dna h => h.timestamp
  | Header.AgentValidationPkg h => h.timestamp
  | Header.InitZomesComplete h => h.timestamp
  | Header.ChainOpen h => h.timestamp
  | Header.ChainClose h => h.timestamp
  | Header.EntryCreate h => h.timestamp
  | Header.EntryUpdate h => h.timestamp
  | Header.ElementDelete h => h.timestamp
  | Header.LinkAdd h => h.timestamp
  | Header.LinkRemove h => h.timestamp

/-- `Header::entry_data`: the `(entry_hash, entry_type)` of the two
new-entry header kinds. -/
def Header.entry_data : Header → Option (EntryHash × Nat)
  | Header.EntryCreate h => some (h.entry_hash, h.entry_type)
  | Header.EntryUpdate h => some (h.entry_hash, h.entry_type)
  | _ => none

/-- `NewEntryHeader` (`types/src/header.rs`, lines 18-24): one of the two
header kinds that create a new entry. -/
inductive NewEntryHeader where
  | Create (h : EntryCreate)
  | Update (h : EntryUpdate)
  deriving DecidableEq, Repr

/-- `NewEntryHeader::entry`: the entry hash on the header. -/
def NewEntryHeader.entry : NewEntryHeader → EntryHash
  | NewEntryHeader.Create h => h.entry_hash
  | NewEntryHeader.Update h => h.entry_hash

/-- `From<NewEntryHeader> for Header`. -/
def NewEntryHeader.toHeader : NewEntryHeader → Header
  | NewEntryHeader.Create h => Header.EntryCreate h
  | NewEntryHeader.Update h => Header.EntryUpdate h

/-- The timestamp carried by a new-entry header. -/
def NewEntryHeader.timestamp (h : NewEntryHeader) : Nat :=
  h.toHeader.timestamp

/-- A header paired with its (memoized) hash and the author's signature
(`SignedHeaderHashed`). -/
structure SignedHeaderHashed where
  header : Header
  hash : HeaderHash
  signature : Signature
  deriving DecidableEq, Repr

/-- An element: signed header plus optional entry (`element::Element`). -/
structure Element where
  signed_header : SignedHeaderHashed
  entry : Option Entry
  deriving DecidableEq, Repr

/-- The abstract content-hash functions of the model.  The claims use
hashes only as keys, so the digest functions are parameters. -/
structure HashModel where
  headerHash : Header → HeaderHash
  entryHash : Entry → EntryHash

/-- The `DhtOp` enum (`types/src/dht_op.rs`, lines 21-82). -/
inductive DhtOp where
  | StoreElement (sig : Signature) (header : Header) (entry : Option Entry)
  | StoreEntry (sig : Signature) (header : NewEntryHeader) (entry : Entry)
  | RegisterAgentActivity (sig : Signature) (header : Header)
  | RegisterReplacedBy (sig : Signature) (header : EntryUpdate) (entry : Option Entry)
  | RegisterDeletedBy (sig : Signature) (header : ElementDelete)
  | RegisterDeletedEntryHeader (sig : Signature) (header : ElementDelete)
  | RegisterAddLink (sig : Signature) (header : LinkAdd)
  | RegisterRemoveLink (sig : Signature) (header : LinkRemove)
  deriving DecidableEq, Repr

/-- The signature-free `UniqueForm` of an op (`dht_op.rs`, lines 206-217);
the op hash is the hash of this form, so the form itself serves as the
op's hash in the model (content hashing is injective on distinct content). -/
inductive UniqueForm where
  | StoreElement (header : Header)
  | StoreEntry (header : NewEntryHeader)
  | RegisterAgentActivity (header : Header)
  | RegisterReplacedBy (header : EntryUpdate)
  | RegisterDeletedBy (header : ElementDelete)
  | RegisterDeletedEntryHeader (header : ElementDelete)
  | RegisterAddLink (header : LinkAdd)
  | RegisterRemoveLink (header : LinkRemove)
  deriving DecidableEq, Repr

/-- `DhtOp::as_unique_form` (`dht_op.rs`, lines 103-116). -/
def DhtOp.as_unique_form : DhtOp → UniqueForm
  | DhtOp.StoreElement _ header _ => UniqueForm.StoreElement header
  | DhtOp.StoreEntry _ header _ => UniqueForm.StoreEntry header
  | DhtOp.RegisterAgentActivity _ header => UniqueForm.RegisterAgentActivity header
  | DhtOp.RegisterReplacedBy _ header _ => UniqueForm.RegisterReplacedBy header
  | DhtOp.RegisterDeletedBy _ header => UniqueForm.RegisterDeletedBy header
  | DhtOp.RegisterDeletedEntryHeader _ header => UniqueForm.RegisterDeletedEntryHeader header
  | DhtOp.RegisterAddLink _ header => UniqueForm.RegisterAddLink header
  | DhtOp.RegisterRemoveLink _ header => UniqueForm.RegisterRemoveLink header

/-- The hash of a `DhtOp`, modelled as its unique form. -/
abbrev DhtOpHash := UniqueForm

/-- `DhtOpError` (`dht_op/error.rs`): an entry-bearing header without its
entry. -/
inductive DhtOpError where
  | HeaderWithoutEntry (header : Header)
  deriving DecidableEq, Repr

/-- `produce_ops_from_element` (`types/src/dht_op.rs`, lines 220-279):
expand one element into its ordered list of DHT ops.  Every element
yields `StoreElement` and `RegisterAgentActivity`; entry-carrying and
link/delete header kinds push their additional ops in source order. -/
def produce_ops_from_element (element : Element) : Except DhtOpError (List DhtOp) :=
  let sig := element.signed_header.signature
  let header := element.signed_header.header
  let maybe_entry := element.entry
  let ops := [DhtOp.StoreElement sig header maybe_entry,
              DhtOp.RegisterAgentActivity sig header]
  match header with
  | Header.Dna _ | Header.ChainOpen _ | Header.ChainClose _
  | Header.AgentValidationPkg _ | Header.InitZomesComplete _ => Except.ok ops
  | Header.LinkAdd link_add => Except.ok (ops ++ [DhtOp.RegisterAddLink sig link_add])
  | Header.LinkRemove link_remove =>
    Except.ok (ops ++ [DhtOp.RegisterRemoveLink sig link_remove])
  | Header.EntryCreate h =>
    match maybe_entry with
    | some entry =>
      Except.ok (ops ++ [DhtOp.StoreEntry sig (NewEntryHeader.Create h) entry])
    | none => Except.error (DhtOpError.HeaderWithoutEntry (Header.EntryCreate h))
  | Header.EntryUpdate entry_update =>
    match maybe_entry with
    | some entry =>
      Except.ok (ops ++ [DhtOp.StoreEntry sig (NewEntryHeader.Update entry_update) entry,
                         DhtOp.RegisterReplacedBy sig entry_update (some entry)])
    | none => Except.error (DhtOpError.HeaderWithoutEntry (Header.EntryUpdate entry_update))
  | Header.ElementDelete entry_delete =>
    Except.ok (ops ++ [DhtOp.RegisterDeletedBy sig entry_delete,
                       DhtOp.RegisterDeletedEntryHeader sig entry_delete])

/-! ## C4 component: the stores

Modelled from the spec: the element-store and metadata-buffer modules
(`holochain_state` buffers, `core/state/metadata.rs`) are not in the
source tree — only an earlier `chain_cas.rs`/`chain_meta.rs` vintage and
the call sites are — so the stores follow §3/§4.4 of the specification:
the element vault maps header-hash to (signed header, entry-hash?) and
entry-hash to entry; each metadata relation is keyed by basis and holds
`(timestamp, header_hash)` pairs with duplicates suppressed; `put` is
idempotent on the key. -/

/-- Association-list lookup by key. -/
def kvGet {κ α : Type} [DecidableEq κ] (l : List (κ × α)) (k : κ) : Option α :=
  (l.find? fun p => p.1 = k).map Prod.snd

/-- Association-list write: overwrite the key's value, or append. -/
def kvPut {κ α : Type} [DecidableEq κ] : List (κ × α) → κ → α → List (κ × α)
  | [], k, v => [(k, v)]
  | p :: rest, k, v => if p.1 = k then (k, v) :: rest else p :: kvPut rest k v

/-- Set-like insert into a list (duplicates suppressed). -/
def setInsert {α : Type} [DecidableEq α] (l : List α) (a : α) : List α :=
  if a ∈ l then l else l ++ [a]

/-- Modelled from the spec: `ChainCasBuf`, the element store of a vault or
cache — header-hash to (signed header, entry-hash?) plus entry-hash to
entry (§3 C4; the buffer implementation is not in the source tree). -/
structure ChainCasBuf where
  headers : List (HeaderHash × (SignedHeaderHashed × Option EntryHash))
  entries : List (EntryHash × Entry)
  deriving DecidableEq, Repr

/-- `ChainCasBuf::put`: store a signed header and optionally its hashed
entry, keyed by their hashes. -/
def ChainCasBuf.put (cas : ChainCasBuf) (signed_header : SignedHeaderHashed)
    (maybe_entry : Option (EntryHash × Entry)) : ChainCasBuf :=
  { headers := kvPut cas.headers signed_header.hash
      (signed_header, maybe_entry.map Prod.fst),
    entries :=
      match maybe_entry with
      | some (eh, e) => kvPut cas.entries eh e
      | none => cas.entries }

/-- `ChainCasBuf::get_header`. -/
def ChainCasBuf.get_header (cas : ChainCasBuf) (h : HeaderHash) :
    Option SignedHeaderHashed :=
  (kvGet cas.headers h).map Prod.fst

/-- `ChainCasBuf::get_entry`. -/
def ChainCasBuf.get_entry (cas : ChainCasBuf) (eh : EntryHash) : Option Entry :=
  kvGet cas.entries eh

/-- `ChainCasBuf::get_element`: the signed header plus its entry, if the
header references one. -/
def ChainCasBuf.get_element (cas : ChainCasBuf) (h : HeaderHash) : Option Element :=
  (kvGet cas.headers h).map fun p =>
    ⟨p.1, p.2.bind fun eh => kvGet cas.entries eh⟩

/-- A `(timestamp, header_hash)` metadata index entry (`TimedHeaderHash`;
modelled from the spec — ordering is by timestamp, ties broken by
header hash). -/
structure TimedHeaderHash where
  timestamp : Nat
  header_hash : Nat
  deriving DecidableEq, Repr

/-- The derived `Ord` of `TimedHeaderHash`: lexicographic on
(timestamp, header_hash). -/
def TimedHeaderHash.le (a b : TimedHeaderHash) : Bool :=
  a.timestamp < b.timestamp
    ∨ (a.timestamp = b.timestamp ∧ a.header_hash ≤ b.header_hash)

/-- Raw system-metadata values registered into a metadata buffer
(`SysMetaVal` in `core/state/metadata.rs`, used by `cascade.rs`). -/
inductive SysMetaVal where
  | NewEntry (h : TimedHeaderHash)
  | Update (h : TimedHeaderHash)
  | Delete (h : TimedHeaderHash)
  deriving DecidableEq, Repr

/-- Modelled from the spec: `MetadataBuf`, the metadata index of a vault
or cache (§3 C4 relations; the implementation module is not in the
source tree).  Every relation is basis-keyed with set semantics. -/
structure MetadataBuf where
  headers_on_entry : List (EntryHash × TimedHeaderHash)
  headers_on_header : List (HeaderHash × TimedHeaderHash)
  updates_on_entry : List (EntryHash × TimedHeaderHash)
  updates_on_header : List (HeaderHash × TimedHeaderHash)
  deletes_on_entry : List (EntryHash × TimedHeaderHash)
  deletes_on_header : List (HeaderHash × TimedHeaderHash)
  links : List (EntryHash × LinkAdd)
  link_removes : List (EntryHash × LinkRemove)
  activity : List (AgentHash × TimedHeaderHash)
  deriving DecidableEq, Repr

/-- `MetadataBuf::register_raw_on_entry`: file a raw value under an entry
basis. -/
def MetadataBuf.register_raw_on_entry (m : MetadataBuf) (eh : EntryHash)
    (v : SysMetaVal) : MetadataBuf :=
  match v with
  | SysMetaVal.NewEntry t =>
    { m with headers_on_entry := setInsert m.headers_on_entry (eh, t) }
  | SysMetaVal.Update t =>
    { m with updates_on_entry := setInsert m.updates_on_entry (eh, t) }
  | SysMetaVal.Delete t =>
    { m with deletes_on_entry := setInsert m.deletes_on_entry (eh, t) }

/-- `MetadataBuf::register_raw_on_header`. -/
def MetadataBuf.register_raw_on_header (m : MetadataBuf) (hh : HeaderHash)
    (v : SysMetaVal) : MetadataBuf :=
  match v with
  | SysMetaVal.NewEntry t =>
    { m with headers_on_header := setInsert m.headers_on_header (hh, t) }
  | SysMetaVal.Update t =>
    { m with updates_on_header := setInsert m.updates_on_header (hh, t) }
  | SysMetaVal.Delete t =>
    { m with deletes_on_header := setInsert m.deletes_on_header (hh, t) }

/-- `MetadataBuf::register_header`: record a new-entry header on its
entry hash. -/
def MetadataBuf.register_header (m : MetadataBuf) (hm : HashModel)
    (neh : NewEntryHeader) : MetadataBuf :=
  m.register_raw_on_entry neh.entry
    (SysMetaVal.NewEntry ⟨neh.timestamp, hm.headerHash neh.toHeader⟩)

/-- `MetadataBuf::register_update`: record an update on the entry it
replaces (when known) or the header it replaces. -/
def MetadataBuf.register_update (m : MetadataBuf) (hm : HashModel)
    (eu : EntryUpdate) (old_entry_hash : Option EntryHash) : MetadataBuf :=
  let t : TimedHeaderHash := ⟨eu.timestamp, hm.headerHash (Header.EntryUpdate eu)⟩
  match old_entry_hash with
  | some eh => { m with updates_on_entry := setInsert m.updates_on_entry (eh, t) }
  | none =>
    { m with updates_on_header := setInsert m.updates_on_header (eu.replaces_address, t) }

/-- `MetadataBuf::register_delete`: record a delete on the deleted header
and on that header's entry. -/
def MetadataBuf.register_delete (m : MetadataBuf) (hm : HashModel)
    (ed : ElementDelete) (entry_hash : EntryHash) : MetadataBuf :=
  let t : TimedHeaderHash := ⟨ed.timestamp, hm.headerHash (Header.ElementDelete ed)⟩
  { m with
    deletes_on_header := setInsert m.deletes_on_header (ed.removes_address, t),
    deletes_on_entry := setInsert m.deletes_on_entry (entry_hash, t) }

/-- `MetadataBuf::register_activity`: record a header under its author. -/
def MetadataBuf.register_activity (m : MetadataBuf) (hm : HashModel)
    (header : Header) : MetadataBuf :=
  { m with activity :=
      setInsert m.activity (header.author, ⟨header.timestamp, hm.headerHash header⟩) }

/-- `MetadataBuf::add_link`. -/
def MetadataBuf.add_link (m : MetadataBuf) (la : LinkAdd) : MetadataBuf :=
  { m with links := setInsert m.links (la.base_address, la) }

/-- `MetadataBuf::remove_link`. -/
def MetadataBuf.remove_link (m : MetadataBuf) (lr : LinkRemove) : MetadataBuf :=
  { m with link_removes := setInsert m.link_removes (lr.base_address, lr) }

/-- `MetadataBuf::get_deletes_on_header`: all deletes filed on a header. -/
def MetadataBuf.get_deletes_on_header (m : MetadataBuf) (hh : HeaderHash) :
    List TimedHeaderHash :=
  (m.deletes_on_header.filter fun p => p.1 = hh).map Prod.snd

/-- `MetadataBuf::get_headers`: all new-entry headers filed on an entry. -/
def MetadataBuf.get_headers (m : MetadataBuf) (eh : EntryHash) :
    List TimedHeaderHash :=
  (m.headers_on_entry.filter fun p => p.1 = eh).map Prod.snd

/-! ## C6 component: `integrate_dht_ops_workflow.rs` -/

/-- `ValidationStatus`. -/
inductive ValidationStatus where
  | Valid
  | Rejected
  | Abandoned
  deriving DecidableEq, Repr

/-- A queue entry: op plus its validation status
(`IntegrationQueueValue`). -/
structure IntegrationQueueValue where
  op : DhtOp
  validation_status : ValidationStatus
  deriving DecidableEq, Repr

/-- A basis hash (header, entry or agent hash; all `Nat` here). -/
abbrev AnyDhtHash := Nat

/-- `DhtOpLight` (`types/src/dht_op.rs`, lines 91-100): hash-only form of
an op, paired with its basis. -/
inductive DhtOpLight where
  | StoreElement (h : HeaderHash) (e : Option EntryHash) (basis : AnyDhtHash)
  | StoreEntry (h : HeaderHash) (e : EntryHash) (basis : AnyDhtHash)
  | RegisterAgentActivity (h : HeaderHash) (basis : AnyDhtHash)
  | RegisterReplacedBy (h : HeaderHash) (e : EntryHash) (basis : AnyDhtHash)
  | RegisterDeletedBy (h : HeaderHash) (basis : AnyDhtHash)
  | RegisterDeletedEntryHeader (h : HeaderHash) (basis : AnyDhtHash)
  | RegisterAddLink (h : HeaderHash) (basis : AnyDhtHash)
  | RegisterRemoveLink (h : HeaderHash) (basis : AnyDhtHash)
  deriving DecidableEq, Repr

/-- `DhtOpConvertError::MissingHeaderEntry`. -/
inductive DhtOpConvertError where
  | MissingHeaderEntry (h : HeaderHash)
  deriving DecidableEq, Repr

/-- The entry hash referenced by the header stored under `h`, if any. -/
def header_entry_hash (cas : ChainCasBuf) (h : HeaderHash) : Option EntryHash :=
  (cas.get_header h).bind fun shh => shh.header.entry_data.map Prod.fst

/-- Modelled from the spec: `dht_op_to_light_basis`
(`produce_dht_op_workflow/dht_op_light`, not in the source tree) — the
table-driven basis per op kind (§3): header hash for `StoreElement`,
entry hash for `StoreEntry`, author for `RegisterAgentActivity`, the
replaced header/entry for `RegisterReplacedBy`, the deleted
header/entry for the two delete ops, the base for link ops.  Looking up
a referenced header's entry hash can fail with `MissingHeaderEntry`. -/
def dht_op_to_light_basis (hm : HashModel) (op : DhtOp)
    (element_store : ChainCasBuf) :
    Except DhtOpConvertError (DhtOpLight × AnyDhtHash) :=
  match op with
  | DhtOp.StoreElement _ header _ =>
    let hh := hm.headerHash header
    Except.ok (DhtOpLight.StoreElement hh (header.entry_data.map Prod.fst) hh, hh)
  | DhtOp.StoreEntry _ neh _ =>
    Except.ok (DhtOpLight.StoreEntry (hm.headerHash neh.toHeader) neh.entry
      neh.entry, neh.entry)
  | DhtOp.RegisterAgentActivity _ header =>
    Except.ok (DhtOpLight.RegisterAgentActivity (hm.headerHash header)
      header.author, header.author)
  | DhtOp.RegisterReplacedBy _ eu _ =>
    match eu.intended_for with
    | IntendedFor.Header =>
      Except.ok (DhtOpLight.RegisterReplacedBy
        (hm.headerHash (Header.EntryUpdate eu)) eu.entry_hash eu.replaces_address,
        eu.replaces_address)
    | IntendedFor.Entry =>
      match header_entry_hash element_store eu.replaces_address with
      | some basis =>
        Except.ok (DhtOpLight.RegisterReplacedBy
          (hm.headerHash (Header.EntryUpdate eu)) eu.entry_hash basis, basis)
      | none => Except.error (DhtOpConvertError.MissingHeaderEntry eu.replaces_address)
  | DhtOp.RegisterDeletedBy _ ed =>
    Except.ok (DhtOpLight.RegisterDeletedBy
      (hm.headerHash (Header.ElementDelete ed)) ed.removes_address,
      ed.removes_address)
  | DhtOp.RegisterDeletedEntryHeader _ ed =>
    match header_entry_hash element_store ed.removes_address with
    | some basis =>
      Except.ok (DhtOpLight.RegisterDeletedEntryHeader
        (hm.headerHash (Header.ElementDelete ed)) basis, basis)
    | none => Except.error (DhtOpConvertError.MissingHeaderEntry ed.removes_address)
  | DhtOp.RegisterAddLink _ la =>
    Except.ok (DhtOpLight.RegisterAddLink (hm.headerHash (Header.LinkAdd la))
      la.base_address, la.base_address)
  | DhtOp.RegisterRemoveLink _ lr =>
    Except.ok (DhtOpLight.RegisterRemoveLink (hm.headerHash (Header.LinkRemove lr))
      lr.base_address, lr.base_address)

/-- The integrated-ops index value (`IntegratedDhtOpsValue`): validation
status, basis, light op and integration timestamp. -/
structure IntegratedDhtOpsValue where
  validation_status : ValidationStatus
  basis : AnyDhtHash
  op : DhtOpLight
  when_integrated : Nat
  deriving DecidableEq, Repr

/-- `Outcome` of integrating one op: integrated, or deferred back to the
queue (`integrate_dht_ops_workflow.rs`, lines 328-331). -/
inductive Outcome where
  | Integrated (v : IntegratedDhtOpsValue)
  | Deferred (v : IntegrationQueueValue)
  deriving DecidableEq, Repr

/-- `integrate_single_dht_op` (`integrate_dht_ops_workflow.rs`, lines
156-300): apply one op's mutations to the element/meta stores, deferring
when a referenced header/entry is absent; on success convert to the
light form and return the integrated value (timestamped with `now`). -/
def integrate_single_dht_op (hm : HashModel) (element_store : ChainCasBuf)
    (meta_store : MetadataBuf) (value : IntegrationQueueValue)
    (integrate_element_data : Bool) (now : Nat) :
    ChainCasBuf × MetadataBuf × Outcome :=
  let op := value.op
  let validation_status := value.validation_status
  -- the per-kind mutations; the Bool is false when the op must be deferred
  let step : ChainCasBuf × MetadataBuf × Bool :=
    match op with
    | DhtOp.StoreElement sig header maybe_entry =>
      let es := if integrate_element_data then
          element_store.put ⟨header, hm.headerHash header, sig⟩
            (maybe_entry.map fun e => (hm.entryHash e, e))
        else element_store
      (es, meta_store, true)
    | DhtOp.StoreEntry sig neh entry =>
      let ms := meta_store.register_header hm neh
      let es := if integrate_element_data then
          element_store.put ⟨neh.toHeader, hm.headerHash neh.toHeader, sig⟩
            (some (hm.entryHash entry, entry))
        else element_store
      (es, ms, true)
    | DhtOp.RegisterAgentActivity sig header =>
      let es := if integrate_element_data then
          element_store.put ⟨header, hm.headerHash header, sig⟩ none
        else element_store
      (es, meta_store.register_activity hm header, true)
    | DhtOp.RegisterReplacedBy _ eu _ =>
      match eu.intended_for with
      | IntendedFor.Header =>
        (element_store, meta_store.register_update hm eu none, true)
      | IntendedFor.Entry =>
        match header_entry_hash element_store eu.replaces_address with
        | some old_entry_hash =>
          (element_store, meta_store.register_update hm eu (some old_entry_hash), true)
        | none => (element_store, meta_store, false)
    | DhtOp.RegisterDeletedBy _ ed | DhtOp.RegisterDeletedEntryHeader _ ed =>
      match header_entry_hash element_store ed.removes_address with
      | some entry_hash =>
        (element_store, meta_store.register_delete hm ed entry_hash, true)
      | none => (element_store, meta_store, false)
    | DhtOp.RegisterAddLink sig la =>
      let ms := meta_store.add_link la
      let es := if integrate_element_data then
          element_store.put ⟨Header.LinkAdd la, hm.headerHash (Header.LinkAdd la), sig⟩ none
        else element_store
      (es, ms, true)
    | DhtOp.RegisterRemoveLink sig lr =>
      if (element_store.get_entry lr.base_address).isNone then
        (element_store, meta_store, false)
      else
        let es := if integrate_element_data then
            element_store.put
              ⟨Header.LinkRemove lr, hm.headerHash (Header.LinkRemove lr), sig⟩ none
          else element_store
        (es, meta_store.remove_link lr, true)
  match step with
  | (es, ms, false) => (es, ms, Outcome.Deferred ⟨op, validation_status⟩)
  | (es, ms, true) =>
    match dht_op_to_light_basis hm op es with
    | Except.ok (light, basis) =>
      (es, ms, Outcome.Integrated ⟨validation_status, basis, light, now⟩)
    | Except.error (DhtOpConvertError.MissingHeaderEntry _) =>
      (es, ms, Outcome.Deferred ⟨op, validation_status⟩)

/-- The result of one pass of the workflow's retry loop over the queue. -/
structure PassResult where
  cas : ChainCasBuf
  meta : MetadataBuf
  integrated : List (DhtOpHash × IntegratedDhtOpsValue)
  next_ops : List (DhtOpHash × IntegrationQueueValue)
  num_integrated : Nat
  deriving Repr

/-- One pass of the integration loop (`integrate_dht_ops_workflow.rs`,
lines 88-109): process each queued op in order, skipping ops whose hash
is already in the integrated index, collecting deferred ops for the next
pass. -/
def integration_pass (hm : HashModel) (now : Nat) (cas : ChainCasBuf)
    (meta : MetadataBuf) (integrated : List (DhtOpHash × IntegratedDhtOpsValue)) :
    List (DhtOpHash × IntegrationQueueValue) → PassResult
  | [] => ⟨cas, meta, integrated, [], 0⟩
  | (op_hash, value) :: rest =>
    if (kvGet integrated op_hash).isNone then
      match integrate_single_dht_op hm cas meta value true now with
      | (cas', meta', Outcome.Integrated iv) =>
        let r := integration_pass hm now cas' meta' (kvPut integrated op_hash iv) rest
        { r with num_integrated := r.num_integrated + 1 }
      | (cas', meta', Outcome.Deferred dv) =>
        let r := integration_pass hm now cas' meta' integrated rest
        { r with next_ops := (op_hash, dv) :: r.next_ops }
    else
      integration_pass hm now cas meta integrated rest

/-- Each pass retires at least as many ops as it integrates: the deferred
remainder plus the integrated count never exceeds the input length. -/
theorem integration_pass_length (hm : HashModel) (now : Nat) (cas : ChainCasBuf)
    (meta : MetadataBuf) (integrated : List (DhtOpHash × IntegratedDhtOpsValue))
    (ops : List (DhtOpHash × IntegrationQueueValue)) :
    (integration_pass hm now cas meta integrated ops).next_ops.length
      + (integration_pass hm now cas meta integrated ops).num_integrated
      ≤ ops.length := by
  induction ops generalizing cas meta integrated with
  | nil => simp [integration_pass]
  | cons head rest ih =>
    obtain ⟨op_hash, value⟩ := head
    simp only [integration_pass]
    split
    · rcases hsingle : integrate_single_dht_op hm cas meta value true now
        with ⟨cas', meta', out⟩
      cases out with
      | Integrated iv =>
        dsimp only
        have := ih cas' meta' (kvPut integrated op_hash iv)
        simp only [List.length_cons]
        omega
      | Deferred dv =>
        dsimp only
        have := ih cas' meta' integrated
        simp only [List.length_cons]
        omega
    · have := ih cas meta integrated
      simp only [List.length_cons]
      omega

/-- The final state of the workflow's retry loop. -/
structure LoopResult where
  cas : ChainCasBuf
  meta : MetadataBuf
  integrated : List (DhtOpHash × IntegratedDhtOpsValue)
  remaining : List (DhtOpHash × IntegrationQueueValue)
  total_integrated : Nat
  deriving Repr

/-- The do-while retry loop (`integrate_dht_ops_workflow.rs`, lines
88-109): repeat passes while something was integrated and deferred ops
remain. -/
def integration_loop (hm : HashModel) (now : Nat) (cas : ChainCasBuf)
    (meta : MetadataBuf) (integrated : List (DhtOpHash × IntegratedDhtOpsValue))
    (ops : List (DhtOpHash × IntegrationQueueValue)) (total : Nat) : LoopResult :=
  let r := integration_pass hm now cas meta integrated ops
  if _h : r.next_ops.length > 0 ∧ r.num_integrated > 0 then
    integration_loop hm now r.cas r.meta r.integrated r.next_ops
      (total + r.num_integrated)
  else
    ⟨r.cas, r.meta, r.integrated, r.next_ops, total + r.num_integrated⟩
termination_by ops.length
decreasing_by
  have hlen := integration_pass_length hm now cas meta integrated ops
  have h' : (integration_pass hm now cas meta integrated ops).next_ops.length > 0
      ∧ (integration_pass hm now cas meta integrated ops).num_integrated > 0 := _h
  show (integration_pass hm now cas meta integrated ops).next_ops.length < ops.length
  omega

/-- `WorkComplete`: whether the queue was exhausted. -/
inductive WorkComplete where
  | Complete
  | Incomplete
  deriving DecidableEq, Repr

/-- `IntegrateDhtOpsWorkspace` (`integrate_dht_ops_workflow.rs`, lines
342-351): queue, integrated index, element store, metadata store. -/
structure IntegrateDhtOpsWorkspace where
  integration_queue : List IntegrationQueueValue
  integrated_dht_ops : List (DhtOpHash × IntegratedDhtOpsValue)
  cas : ChainCasBuf
  meta : MetadataBuf
  deriving Repr

/-- `integrate_dht_ops_workflow` (`integrate_dht_ops_workflow.rs`, lines
40-147): drain the queue, hash each op, run the retry loop, and re-queue
whatever could not be integrated. -/
def integrate_dht_ops_workflow (hm : HashModel) (now : Nat)
    (workspace : IntegrateDhtOpsWorkspace) : IntegrateDhtOpsWorkspace × WorkComplete :=
  let ops := workspace.integration_queue.map fun v => (v.op.as_unique_form, v)
  let r := integration_loop hm now workspace.cas workspace.meta
    workspace.integrated_dht_ops ops 0
  if r.remaining.length = 0 then
    (⟨[], r.integrated, r.cas, r.meta⟩, WorkComplete.Complete)
  else
    (⟨r.remaining.map Prod.snd, r.integrated, r.cas, r.meta⟩, WorkComplete.Incomplete)

/-- Failure modes of inline cache integration: op derivation failed, or
the `unreachable!` panic on a deferred op
(`integrate_dht_ops_workflow.rs`, lines 318-322). -/
inductive IntegrateToCacheErr where
  | opError (e : DhtOpError)
  | unreachableDeferred (v : IntegrationQueueValue)
  deriving DecidableEq, Repr

/-- The op loop of `integrate_to_cache`: integrate each derived op as
`Valid` without element data, panicking (modelled as an error) on any
deferral. -/
def integrate_to_cache_loop (hm : HashModel) (now : Nat) (es : ChainCasBuf)
    (ms : MetadataBuf) :
    List DhtOp → Except IntegrateToCacheErr (ChainCasBuf × MetadataBuf)
  | [] => Except.ok (es, ms)
  | op :: rest =>
    match integrate_single_dht_op hm es ms ⟨op, ValidationStatus.Valid⟩ false now with
    | (es', ms', Outcome.Integrated _) => integrate_to_cache_loop hm now es' ms' rest
    | (_, _, Outcome.Deferred v) =>
      Except.error (IntegrateToCacheErr.unreachableDeferred v)

/-- `integrate_to_cache` (`integrate_dht_ops_workflow.rs`, lines 306-325):
after a local write, inline-integrate every op derived from the element
into the cache stores, skipping element data. -/
def integrate_to_cache (hm : HashModel) (now : Nat) (element : Element)
    (element_store : ChainCasBuf) (meta_store : MetadataBuf) :
    Except IntegrateToCacheErr (ChainCasBuf × MetadataBuf) :=
  match produce_ops_from_element element with
  | Except.error e => Except.error (IntegrateToCacheErr.opError e)
  | Except.ok ops => integrate_to_cache_loop hm now element_store meta_store ops

/-! ## C5 component: `holochain/src/core/state/cascade.rs`

The read cascade.  The network capability is modelled as the list of
responses a `get` would produce; the cascade merges them into the cache
stores exactly as `fetch_element_via_header` / `fetch_element_via_entry`
do and then reads back. -/

/-- `WireDelete` (`types/src/header.rs`, lines 52-55): the delete header's
timed hash and the address it removes. -/
structure WireDelete where
  element_delete_address : TimedHeaderHash
  removes_address : HeaderHash
  deriving DecidableEq, Repr

/-- `WireElement`: a signed header (with its hash), optional entry, and
optional proof of delete, as returned by a header authority. -/
structure WireElement where
  signed_header : SignedHeaderHashed
  maybe_entry : Option Entry
  deleted : Option WireDelete
  deriving DecidableEq, Repr

/-- `MinNewEntryHeader` (`types/src/header.rs`, lines 40-48): the minimum
unique data of a new-entry header sharing a common entry. -/
structure MinNewEntryHeader where
  timestamp : Nat
  author : AgentHash
  header_seq : Nat
  prev_header : HeaderHash
  signature : Signature
  deriving DecidableEq, Repr

/-- `WireNewEntryHeader` (`types/src/header.rs`, lines 28-35): a create, or
an update paired with the header it replaces (`IntendedFor::Entry`
implied). -/
inductive WireNewEntryHeader where
  | Create (h : MinNewEntryHeader)
  | Update (h : MinNewEntryHeader) (replaces : HeaderHash)
  deriving DecidableEq, Repr

/-- `WireNewEntryHeader::create_new_entry_header`: rebuild the full
new-entry header from the minimal wire data plus the entry type and
hash, returning the header, its hash and the signature.  (The method
body is not in the source tree; reconstruction follows the
`WireNewEntryHeader` field doc: an `Update` implies
`IntendedFor::Entry`.) -/
def WireNewEntryHeader.create_new_entry_header (w : WireNewEntryHeader)
    (hm : HashModel) (entry_type : Nat) (entry_hash : EntryHash) :
    NewEntryHeader × HeaderHash × Signature :=
  match w with
  | WireNewEntryHeader.Create m =>
    let neh := NewEntryHeader.Create
      ⟨m.author, m.timestamp, m.header_seq, m.prev_header, entry_type, entry_hash⟩
    (neh, hm.headerHash neh.toHeader, m.signature)
  | WireNewEntryHeader.Update m replaces =>
    let neh := NewEntryHeader.Update
      ⟨m.author, m.timestamp, m.header_seq, m.prev_header, IntendedFor.Entry,
        replaces, entry_type, entry_hash⟩
    (neh, hm.headerHash neh.toHeader, m.signature)

/-- `RawGetEntryResponse`: an entry with its live new-entry headers and
the deletes on them, as returned by an entry authority. -/
structure RawGetEntryResponse where
  live_headers : List WireNewEntryHeader
  deletes : List WireDelete
  entry : Entry
  entry_type : Nat
  entry_hash : EntryHash
  deriving DecidableEq, Repr

/-- `GetElementResponse`: the network's reply variants used by the
cascade. -/
inductive GetElementResponse where
  | GetHeader (we : Option WireElement)
  | GetEntryFull (r : Option RawGetEntryResponse)
  deriving DecidableEq, Repr

/-- The `find_map` scan of `fetch_element_via_header` (`cascade.rs`, lines
136-163): remember the first element seen and stop at the first response
carrying a proof of delete. -/
def scanResponses (element : Option WireElement) :
    List GetElementResponse → Option WireElement × Option WireDelete
  | [] => (element, none)
  | GetElementResponse.GetHeader (some we) :: rest =>
    let element := if element.isNone then some we else element
    match we.deleted with
    | some deleted => (element, some deleted)
    | none => scanResponses element rest
  | _ :: rest => scanResponses element rest

/-- `Cascade::fetch_element_via_header` (`cascade.rs`, lines 125-215):
issue a network get for a header hash and merge the response into the
element cache and meta cache.  An entry whose hash does not match the
header's `entry_data` aborts the merge; deletes are only registered when
a matching entry is present. -/
def fetch_element_via_header (hm : HashModel) (results : List GetElementResponse)
    (element_cache : ChainCasBuf) (meta_cache : MetadataBuf) :
    ChainCasBuf × MetadataBuf :=
  let scanned := scanResponses none results
  match scanned.1 with
  | none => (element_cache, meta_cache)
  | some we =>
    let signed_header := we.signed_header
    let timed_header_hash : TimedHeaderHash :=
      ⟨signed_header.header.timestamp, signed_header.hash⟩
    match we.maybe_entry with
    | some e =>
      let eh := hm.entryHash e
      match signed_header.header.entry_data with
      | some (hash, _) =>
        if eh = hash then
          let meta_cache :=
            match scanned.2 with
            | some wd =>
              (meta_cache.register_raw_on_entry eh
                  (SysMetaVal.Delete wd.element_delete_address)).register_raw_on_header
                wd.removes_address (SysMetaVal.Delete wd.element_delete_address)
            | none => meta_cache
          let meta_cache :=
            meta_cache.register_raw_on_entry eh (SysMetaVal.NewEntry timed_header_hash)
          (element_cache.put signed_header (some (eh, e)), meta_cache)
        else
          -- entry hash does not match the header: return before storing
          (element_cache, meta_cache)
      | none => (element_cache.put signed_header none, meta_cache)
    | none => (element_cache.put signed_header none, meta_cache)

/-- `Cascade::get_element_local_raw` (`cascade.rs`, lines 384-389): vault
first, cache second. -/
def get_element_local_raw (element_vault element_cache : ChainCasBuf)
    (hash : HeaderHash) : Option Element :=
  match element_vault.get_element hash with
  | none => element_cache.get_element hash
  | r => r

/-- `Cascade::dht_get_header` (`cascade.rs`, lines 452-490), with the
network modelled as its response list and a flag recording whether it
was consulted.  A delete known in the cache or vault metadata returns
`none` without touching the network; otherwise the response is merged
into the cache, the delete check is repeated on the merged cache, and
the element is read locally.  (The source's `delete_on_header` variable
is `true` when the merged cache holds *no* delete.) -/
def dht_get_header (hm : HashModel) (element_vault : ChainCasBuf)
    (meta_vault : MetadataBuf) (element_cache : ChainCasBuf)
    (meta_cache : MetadataBuf) (network : List GetElementResponse)
    (header_hash : HeaderHash) :
    (ChainCasBuf × MetadataBuf) × Option Element × Bool :=
  if (meta_cache.get_deletes_on_header header_hash).head?.isSome then
    ((element_cache, meta_cache), none, false)
  else if (meta_vault.get_deletes_on_header header_hash).head?.isSome then
    ((element_cache, meta_cache), none, false)
  else
    let merged := fetch_element_via_header hm network element_cache meta_cache
    let delete_on_header :=
      ((merged.2.get_deletes_on_header header_hash).head?).isNone
    if delete_on_header then
      (merged, none, true)
    else
      (merged, get_element_local_raw element_vault merged.1 header_hash, true)

/-- The response loop of `Cascade::fetch_element_via_entry` (`cascade.rs`,
lines 226-292): for each full entry response, hash the entry once and
check every response's declared hash, rebuild and cache the live
new-entry headers, and register the deletes on both bases. -/
def fetch_entry_loop (hm : HashModel) (target : EntryHash)
    (maybe_entry_hashed : Option (EntryHash × Entry))
    (element_cache : ChainCasBuf) (meta_cache : MetadataBuf) :
    List GetElementResponse → ChainCasBuf × MetadataBuf
  | [] => (element_cache, meta_cache)
  | GetElementResponse.GetEntryFull (some raw) :: rest =>
    let entry_hashed :=
      match maybe_entry_hashed with
      | some eh => eh
      | none => (hm.entryHash raw.entry, raw.entry)
    if raw.entry_hash ≠ entry_hashed.1 ∧ raw.entry_hash = target then
      -- hash mismatch: drop the memoized hash and skip this response
      fetch_entry_loop hm target none element_cache meta_cache rest
    else
      let step := raw.live_headers.foldl
        (fun (acc : ChainCasBuf × MetadataBuf) entry_header =>
          let built := entry_header.create_new_entry_header hm raw.entry_type
            raw.entry_hash
          let meta := acc.2.register_header hm built.1
          (acc.1.put ⟨built.1.toHeader, built.2.1, built.2.2⟩ (some entry_hashed),
            meta))
        (element_cache, meta_cache)
      let withDeletes := raw.deletes.foldl
        (fun (acc : ChainCasBuf × MetadataBuf) wd =>
          (acc.1,
            (acc.2.register_raw_on_header wd.removes_address
                (SysMetaVal.Delete wd.element_delete_address)).register_raw_on_entry
              raw.entry_hash (SysMetaVal.Delete wd.element_delete_address)))
        step
      fetch_entry_loop hm target (some entry_hashed) withDeletes.1 withDeletes.2 rest
  | _ :: rest =>
    fetch_entry_loop hm target maybe_entry_hashed element_cache meta_cache rest

/-- `Cascade::fetch_element_via_entry` (`cascade.rs`, lines 217-294). -/
def fetch_element_via_entry (hm : HashModel) (hash : EntryHash)
    (results : List GetElementResponse) (element_cache : ChainCasBuf)
    (meta_cache : MetadataBuf) : ChainCasBuf × MetadataBuf :=
  fetch_entry_loop hm hash none element_cache meta_cache results

/-- `EntryDhtStatus` (`chain_meta.rs`, line 20). -/
inductive EntryDhtStatus where
  | Live
  | Dead
  | Pending
  | Rejected
  | Abandoned
  | Conflict
  | Withdrawn
  | Purged
  deriving DecidableEq, Repr

/-- Modelled from the spec: `MetadataBuf::get_dht_status` (§4.4; the
implementation module is not in the source tree) — an entry is `Live`
when it has at least one new-entry header carrying no delete, `Dead`
when all of its headers are deleted (in particular when it has none). -/
def MetadataBuf.get_dht_status (m : MetadataBuf) (eh : EntryHash) : EntryDhtStatus :=
  let headers := m.get_headers eh
  if headers ≠ [] ∧ headers.any
      (fun th => (m.get_deletes_on_header th.header_hash).isEmpty) then
    EntryDhtStatus.Live
  else
    EntryDhtStatus.Dead

/-- The `filter_map ... .min()` of `Cascade::dht_get_entry` (`cascade.rs`,
lines 405-419): among the new-entry headers on the entry, keep those with
no delete, and take the minimum in the derived `(timestamp, header_hash)`
order. -/
def minTimedHeader (l : List TimedHeaderHash) : Option TimedHeaderHash :=
  l.foldl
    (fun acc th =>
      match acc with
      | none => some th
      | some best => if th.le best ∧ ¬best.le th then some th else some best)
    none

def oldest_live_header (m : MetadataBuf) (eh : EntryHash) : Option TimedHeaderHash :=
  minTimedHeader ((m.get_headers eh).filter
    (fun th => (m.get_deletes_on_header th.header_hash).head?.isNone))

/-- A panic inside the cascade (`expect("Status is live but no
headers?")`). -/
inductive CascadePanic where
  | expectLiveNoHeaders
  deriving DecidableEq, Repr

/-- `Cascade::dht_get_entry` (`cascade.rs`, lines 393-446): merge the
network responses for the entry into the cache, compute the entry's
status from the merged meta cache, and for a `Live` entry return the
element of the oldest live header — locally if present, otherwise via
`dht_get_header` with its own network responses.  Any non-`Live` status
returns `none`. -/
def dht_get_entry (hm : HashModel) (element_vault : ChainCasBuf)
    (meta_vault : MetadataBuf) (element_cache : ChainCasBuf)
    (meta_cache : MetadataBuf) (entry_network header_network : List GetElementResponse)
    (entry_hash : EntryHash) :
    Except CascadePanic ((ChainCasBuf × MetadataBuf) × Option Element) :=
  let merged := fetch_element_via_entry hm entry_hash entry_network
    element_cache meta_cache
  match merged.2.get_dht_status entry_hash with
  | EntryDhtStatus.Live =>
    match oldest_live_header merged.2 entry_hash with
    | none => Except.error CascadePanic.expectLiveNoHeaders
    | some oldest =>
      match get_element_local_raw element_vault merged.1 oldest.header_hash with
      | some element => Except.ok (merged, some element)
      | none =>
        let continued := dht_get_header hm element_vault meta_vault merged.1
          merged.2 header_network oldest.header_hash
        Except.ok (continued.1, continued.2.1)
  | _ => Except.ok (merged, none)

/-! ## Reference definitions used by the claims

`opDepsPresent` names the dependency precondition of inline integration;
`binarySegments`, `sumLengths` and `tilesB` describe the telescoping-time
segmentation in closed form for comparison with `telescoping_times`. -/

/-- The local data an op references during integration: the replaced
header's entry for an entry-intended `RegisterReplacedBy`, the deleted
header's entry for the two delete ops, the base entry for
`RegisterRemoveLink`; other kinds reference nothing. -/
def opDepsPresent (op : DhtOp) (element_store : ChainCasBuf) : Bool :=
  match op with
  | DhtOp.RegisterReplacedBy _ eu _ =>
    match eu.intended_for with
    | IntendedFor.Header => true
    | IntendedFor.Entry => (header_entry_hash element_store eu.replaces_address).isSome
  | DhtOp.RegisterDeletedBy _ ed =>
    (header_entry_hash element_store ed.removes_address).isSome
  | DhtOp.RegisterDeletedEntryHeader _ ed =>
    (header_entry_hash element_store ed.removes_address).isSome
  | DhtOp.RegisterRemoveLink _ lr =>
    (element_store.get_entry lr.base_address).isSome
  | _ => true

/-- The doubled-bits segmentation of the time axis determined by `n`: one
segment of each power below the given level, duplicated when the
corresponding bit of `n` is set, with offsets packed left to right. -/
def binarySegments (n : Nat) : Nat → Nat → List TimeSegment
  | 0, _ => []
  | m + 1, offset =>
    ⟨m, offset * 2⟩ ::
      (if n.testBit m then
        ⟨m, offset * 2 + 1⟩ :: binarySegments n m (offset * 2 + 2)
      else binarySegments n m (offset * 2 + 1))

/-- Total length covered by a list of segments. -/
def sumLengths (l : List Segment) : Nat := (l.map Segment.length).sum

/-- Whether consecutive segments tile the axis starting at `base`: each
segment's left bound is the running sum of the lengths before it. -/
def tilesB : Nat → List Segment → Bool
  | _, [] => true
  | base, s :: rest =>
    if s.boundsLeft = base then tilesB (base + s.length) rest else false

/-! ## Theorems -/

/-- Splitting a remainder at the m-th bit:
`n % 2^(m+1) = 2^m * bit + n % 2^m`. -/
theorem mod_pow_succ_decomp (n m : Nat) :
    n % 2 ^ (m + 1) = 2 ^ m * (n / 2 ^ m % 2) + n % 2 ^ m := by
  conv_lhs => rw [← Nat.div_add_mod (n % 2 ^ (m + 1)) (2 ^ m)]
  rw [Nat.mod_mod_of_dvd _ (pow_dvd_pow 2 (Nat.le_succ m))]
  congr 2
  rw [pow_succ, Nat.mod_mul_right_div_self]

/-- The m-th bit of `n` is set exactly when `2^m ≤ n % 2^(m+1)`. -/
theorem testBit_iff_mod (n m : Nat) :
    Nat.testBit n m = true ↔ 2 ^ m ≤ n % 2 ^ (m + 1) := by
  rw [Nat.testBit_to_div_mod]
  simp only [decide_eq_true_eq]
  have hd := mod_pow_succ_decomp n m
  have hm : n % 2 ^ m < 2 ^ m := Nat.mod_lt _ (pow_pos (by norm_num) m)
  have hb : n / 2 ^ m % 2 = 0 ∨ n / 2 ^ m % 2 = 1 := by omega
  rcases hb with hb | hb <;> rw [hb] at hd <;>
    constructor <;> intro h <;> omega

/-- The telescoping loop, started at level `m` on the remainder
`n % 2^(m+1)` shifted to the top of the word, produces exactly the
doubled-bits segmentation of the low `m` bits of `n`. -/
theorem ttLoop_eq_binarySegments (n : Nat) :
    ∀ m, m ≤ 31 → ∀ (offset : Nat) (times : List TimeSegment),
    ttLoop m m offset (n % 2 ^ (m + 1) * 2 ^ (31 - m)) times
      = times ++ binarySegments n m offset
  | 0, _, offset, times => by simp [ttLoop, binarySegments]
  | m + 1, hm, offset, times => by
    have hm30 : m ≤ 30 := by omega
    have hr : n % 2 ^ (m + 1) < 2 ^ (m + 1) :=
      Nat.mod_lt _ (pow_pos (by norm_num) _)
    have hpow31 : 2 ^ (m + 1) * 2 ^ (30 - m) = 2 ^ 31 := by
      rw [← pow_add]
      congr 1
      omega
    have hbound : n % 2 ^ (m + 1) * 2 ^ (30 - m) < 2 ^ 31 := by
      rw [← hpow31]
      exact mul_lt_mul_of_pos_right hr (pow_pos (by norm_num) _)
    have hmod : n % 2 ^ (m + 1 + 1) * 2 ^ (31 - (m + 1)) % 2 ^ 31
        = n % 2 ^ (m + 1) * 2 ^ (30 - m) := by
      have h31 : 31 - (m + 1) = 30 - m := by omega
      have hd := mod_pow_succ_decomp n (m + 1)
      have hb : n / 2 ^ (m + 1) % 2 = 0 ∨ n / 2 ^ (m + 1) % 2 = 1 := by omega
      rw [h31, hd]
      rcases hb with hb | hb <;> rw [hb]
      · rw [Nat.mul_zero, Nat.zero_add]
        exact Nat.mod_eq_of_lt hbound
      · rw [Nat.mul_one, Nat.add_mul, hpow31, Nat.add_mod_left]
        exact Nat.mod_eq_of_lt hbound
    have hshift : n % 2 ^ (m + 1) * 2 ^ (30 - m) * 2
        = n % 2 ^ (m + 1) * 2 ^ (31 - m) := by
      rw [mul_assoc, ← pow_succ]
      congr 2
      omega
    have hcond : (2 ^ 31 ≤ n % 2 ^ (m + 1) * 2 ^ (31 - m))
        ↔ Nat.testBit n m = true := by
      rw [testBit_iff_mod]
      have hpow : 2 ^ m * 2 ^ (31 - m) = 2 ^ 31 := by
        rw [← pow_add]
        congr 1
        omega
      constructor
      · intro h
        refine Nat.le_of_mul_le_mul_right ?_ (pow_pos (a := (2 : Nat)) (by norm_num) (31 - m))
        rw [hpow]
        exact h
      · intro h
        rw [← hpow]
        exact mul_le_mul_right' h _
    simp only [ttLoop, Nat.add_sub_cancel]
    rw [hmod, hshift]
    cases htb : Nat.testBit n m with
    | true =>
      rw [if_pos (hcond.mpr htb)]
      have ih := ttLoop_eq_binarySegments n m (by omega) (offset * 2 + 1 + 1)
        (times ++ [⟨m, offset * 2⟩] ++ [⟨m, offset * 2 + 1⟩])
      rw [ih]
      simp [binarySegments, htb, List.append_assoc]
    | false =>
      have hnot : ¬ 2 ^ 31 ≤ n % 2 ^ (m + 1) * 2 ^ (31 - m) := by
        intro hc
        rw [hcond.mp hc] at htb
        cases htb
      rw [if_neg hnot]
      have ih := ttLoop_eq_binarySegments n m (by omega) (offset * 2 + 1)
        (times ++ [⟨m, offset * 2⟩])
      rw [ih]
      simp [binarySegments, htb, List.append_assoc]

/-- The doubled-bits segmentation tiles the axis: started at
`offset * 2^m`, every segment's left bound is the running sum of the
lengths before it. -/
theorem binarySegments_tiles (n : Nat) :
    ∀ (m offset : Nat), tilesB (offset * 2 ^ m) (binarySegments n m offset) = true
  | 0, _ => rfl
  | m + 1, offset => by
    have h1 : offset * 2 * 2 ^ m = offset * 2 ^ (m + 1) := by
      rw [pow_succ]
      ring
    have h2 : (offset * 2 + 1) * 2 ^ m = offset * 2 ^ (m + 1) + 2 ^ m := by
      rw [add_mul, one_mul, h1]
    have h3 : (offset * 2 + 2) * 2 ^ m = offset * 2 ^ (m + 1) + 2 ^ m + 2 ^ m := by
      rw [add_mul, h1]
      ring
    cases htb : Nat.testBit n m with
    | true =>
      simp only [binarySegments, htb, if_pos]
      rw [tilesB]
      rw [if_pos (by simp [Segment.boundsLeft, Segment.length, h1])]
      rw [tilesB]
      rw [if_pos (by
        simp only [Segment.boundsLeft, Segment.length]
        rw [h2])]
      simp only [Segment.length]
      rw [show offset * 2 ^ (m + 1) + 2 ^ m + 2 ^ m
          = (offset * 2 + 2) * 2 ^ m from h3.symm]
      exact binarySegments_tiles n m (offset * 2 + 2)
    | false =>
      simp only [binarySegments, htb, if_neg]
      rw [tilesB]
      rw [if_pos (by simp [Segment.boundsLeft, Segment.length, h1])]
      simp only [Segment.length]
      rw [show offset * 2 ^ (m + 1) + 2 ^ m
          = (offset * 2 + 1) * 2 ^ m from h2.symm]
      exact binarySegments_tiles n m (offset * 2 + 1)

/-- The doubled-bits segmentation covers `2^m - 1 + n % 2^m`. -/
theorem binarySegments_sum (n : Nat) :
    ∀ (m offset : Nat), sumLengths (binarySegments n m offset)
      = 2 ^ m - 1 + n % 2 ^ m
  | 0, _ => by simp [binarySegments, sumLengths, Nat.mod_one]
  | m + 1, offset => by
    have hd := mod_pow_succ_decomp n m
    have hm : n % 2 ^ m < 2 ^ m := Nat.mod_lt _ (pow_pos (by norm_num) m)
    have hp : (1 : Nat) ≤ 2 ^ m := Nat.one_le_two_pow
    have hps : (2 : Nat) ^ (m + 1) = 2 * 2 ^ m := by
      rw [pow_succ]
      ring
    cases htb : Nat.testBit n m with
    | true =>
      have hb : n / 2 ^ m % 2 = 1 := by
        rw [Nat.testBit_to_div_mod] at htb
        exact of_decide_eq_true htb
      rw [hb] at hd
      have hseg : binarySegments n (m + 1) offset
          = ⟨m, offset * 2⟩ :: ⟨m, offset * 2 + 1⟩
            :: binarySegments n m (offset * 2 + 2) := by
        rw [binarySegments, if_pos htb]
      rw [hseg]
      have ih := binarySegments_sum n m (offset * 2 + 2)
      simp only [sumLengths, List.map_cons, List.sum_cons, Segment.length] at ih ⊢
      rw [ih]
      omega
    | false =>
      have hb : n / 2 ^ m % 2 = 0 := by
        rw [Nat.testBit_to_div_mod] at htb
        have := of_decide_eq_false htb
        omega
      rw [hb] at hd
      have hseg : binarySegments n (m + 1) offset
          = ⟨m, offset * 2⟩ :: binarySegments n m (offset * 2 + 1) := by
        rw [binarySegments, if_neg (by simp [htb])]
      rw [hseg]
      have ih := binarySegments_sum n m (offset * 2 + 1)
      simp only [sumLengths, List.map_cons, List.sum_cons, Segment.length] at ih ⊢
      rw [ih]
      omega

/-- Dropping the head of a list with a nonempty tail keeps the last
element. -/
theorem getLast?_cons_of_ne_nil {α : Type} (a : α) :
    ∀ l : List α, l ≠ [] → (a :: l).getLast? = l.getLast?
  | [], h => absurd rfl h
  | _ :: _, _ => List.getLast?_cons_cons ..

/-- A nonzero-level doubled-bits segmentation is nonempty. -/
theorem binarySegments_ne_nil (n m offset : Nat) :
    binarySegments n (m + 1) offset ≠ [] := by
  cases htb : Nat.testBit n m <;> simp [binarySegments, htb]

/-- The final segment of a nonzero-level doubled-bits segmentation has
power 0. -/
theorem binarySegments_last_power (n : Nat) :
    ∀ (m offset : Nat), (binarySegments n (m + 1) offset).getLast?.map
      Segment.power = some 0
  | 0, offset => by
    cases htb : Nat.testBit n 0 <;> simp [binarySegments, htb]
  | m + 1, offset => by
    cases htb : Nat.testBit n (m + 1) with
    | true =>
      rw [binarySegments, if_pos htb]
      rw [getLast?_cons_of_ne_nil _ _ (List.cons_ne_nil _ _)]
      rw [getLast?_cons_of_ne_nil _ _ (binarySegments_ne_nil n m (offset * 2 + 2))]
      exact binarySegments_last_power n m (offset * 2 + 2)
    | false =>
      rw [binarySegments, if_neg (by simp [htb])]
      rw [getLast?_cons_of_ne_nil _ _ (binarySegments_ne_nil n m (offset * 2 + 1))]
      exact binarySegments_last_power n m (offset * 2 + 1)

/-- Counting the `i ≤ k` below `m`. -/
theorem length_filter_range_le (k : Nat) :
    ∀ m, ((List.range m).filter (fun i => i ≤ k)).length = min m (k + 1)
  | 0 => by simp
  | m + 1 => by
    rw [List.range_succ, List.filter_append, List.length_append,
      length_filter_range_le k m]
    by_cases h : m ≤ k
    · have hs : (List.filter (fun i => i ≤ k) [m]).length = 1 := by simp [h]
      rw [hs]
      omega
    · have hs : (List.filter (fun i => i ≤ k) [m]).length = 0 := by simp [h]
      rw [hs]
      omega

/-- `leadingZeros32` agrees with `31 - k` when `2^k ≤ n < 2^(k+1)`. -/
theorem leadingZeros32_eq (n k : Nat) (h1 : 2 ^ k ≤ n) (h2 : n < 2 ^ (k + 1))
    (hk : k ≤ 31) : leadingZeros32 n = 31 - k := by
  rw [leadingZeros32]
  have hcong : (List.range 32).filter (fun i => 2 ^ i ≤ n)
      = (List.range 32).filter (fun i => i ≤ k) := by
    apply List.filter_congr
    intro i _
    have : (2 ^ i ≤ n) ↔ (i ≤ k) := by
      constructor
      · intro hle
        by_contra hgt
        have hki : k + 1 ≤ i := by omega
        have : 2 ^ (k + 1) ≤ 2 ^ i := Nat.pow_le_pow_right (by norm_num) hki
        omega
      · intro hik
        calc 2 ^ i ≤ 2 ^ k := Nat.pow_le_pow_right (by norm_num) hik
          _ ≤ n := h1
    simp [this]
  rw [hcong, length_filter_range_le]
  omega

/-- C5 (amended): with `t` the quantized offset of `now` from the origin
(and `t + 1` fitting in a u32), `telescoping_times` returns exactly the
doubled-bits segmentation of `t + 1`: below its leading bit, one segment
of length `2^i` per position `i` in descending order, doubled when bit
`i` is set.  Consequently each segment's left bound is the sum of all
prior lengths, the segments tile the interval from the origin to `now`
exactly (total length `t`), and the final segment has power 0 whenever
the list is nonempty — which happens exactly when `t ≥ 1`. -/
theorem telescoping_times_binary (topo : Topology) (now : Int)
    (ht : topo.time_coord now + 1 < 2 ^ 32) :
    topo.telescoping_times now
      = binarySegments (topo.time_coord now + 1)
          (31 - leadingZeros32 (topo.time_coord now + 1)) 0
    ∧ tilesB 0 (topo.telescoping_times now) = true
    ∧ sumLengths (topo.telescoping_times now) = topo.time_coord now
    ∧ (topo.telescoping_times now).getLast?.map Segment.power
      = (if topo.time_coord now = 0 then none else some 0) := by
  by_cases h0 : topo.time_coord now = 0
  · have hmain : topo.telescoping_times now = [] := by
      unfold Topology.telescoping_times
      rw [h0]
      decide
    rw [hmain, h0]
    exact ⟨by decide, rfl, rfl, by decide⟩
  · have ht1 : 1 ≤ topo.time_coord now := Nat.pos_of_ne_zero h0
    have hn2 : 2 ≤ topo.time_coord now + 1 := by omega
    have hk1 : 2 ^ Nat.log2 (topo.time_coord now + 1) ≤ topo.time_coord now + 1 :=
      Nat.log2_self_le (by omega)
    have hk2 : topo.time_coord now + 1
        < 2 ^ (Nat.log2 (topo.time_coord now + 1) + 1) := Nat.lt_log2_self
    have hk31 : Nat.log2 (topo.time_coord now + 1) ≤ 31 := by
      by_contra hc
      have h32 : (2 : Nat) ^ 32 ≤ 2 ^ Nat.log2 (topo.time_coord now + 1) :=
        Nat.pow_le_pow_right (by norm_num) (by omega)
      omega
    have hlz : leadingZeros32 (topo.time_coord now + 1)
        = 31 - Nat.log2 (topo.time_coord now + 1) :=
      leadingZeros32_eq _ _ hk1 hk2 hk31
    have hkpos : 1 ≤ Nat.log2 (topo.time_coord now + 1) :=
      (Nat.le_log2 (by omega)).mpr (by simpa using hn2)
    have hmain : topo.telescoping_times now
        = binarySegments (topo.time_coord now + 1)
            (Nat.log2 (topo.time_coord now + 1)) 0 := by
      unfold Topology.telescoping_times
      have hmod : (topo.time_coord now + 1) % 2 ^ 32 = topo.time_coord now + 1 :=
        Nat.mod_eq_of_lt ht
      simp only [hmod]
      rw [if_neg (by omega)]
      rw [hlz]
      have hkk : 32 - (31 - Nat.log2 (topo.time_coord now + 1)) - 1
          = Nat.log2 (topo.time_coord now + 1) := by omega
      rw [hkk]
      have hpow32 : (2 : Nat) ^ (Nat.log2 (topo.time_coord now + 1) + 1)
          * 2 ^ (31 - Nat.log2 (topo.time_coord now + 1)) = 2 ^ 32 := by
        rw [← pow_add]
        congr 1
        omega
      have hb32 : (topo.time_coord now + 1)
          * 2 ^ (31 - Nat.log2 (topo.time_coord now + 1)) < 2 ^ 32 := by
        rw [← hpow32]
        exact mul_lt_mul_of_pos_right hk2 (pow_pos (by norm_num) _)
      rw [Nat.mod_eq_of_lt hb32]
      have hspec := ttLoop_eq_binarySegments (topo.time_coord now + 1)
        (Nat.log2 (topo.time_coord now + 1)) hk31 0 []
      rw [Nat.mod_eq_of_lt hk2] at hspec
      rw [hspec]
      simp
    refine ⟨?_, ?_, ?_, ?_⟩
    · rw [hmain, hlz]
      have hkk : 31 - (31 - Nat.log2 (topo.time_coord now + 1))
          = Nat.log2 (topo.time_coord now + 1) := by omega
      rw [hkk]
    · rw [hmain]
      have := binarySegments_tiles (topo.time_coord now + 1)
        (Nat.log2 (topo.time_coord now + 1)) 0
      simpa using this
    · rw [hmain, binarySegments_sum]
      have hps : (2 : Nat) ^ (Nat.log2 (topo.time_coord now + 1) + 1)
          = 2 * 2 ^ Nat.log2 (topo.time_coord now + 1) := by
        rw [pow_succ]
        ring
      have hmodk : (topo.time_coord now + 1) % 2 ^ Nat.log2 (topo.time_coord now + 1)
          = topo.time_coord now + 1 - 2 ^ Nat.log2 (topo.time_coord now + 1) := by
        rw [Nat.mod_eq_sub_mod hk1]
        exact Nat.mod_eq_of_lt (by omega)
      rw [hmodk]
      omega
    · rw [hmain, if_neg h0]
      have hkk : Nat.log2 (topo.time_coord now + 1)
          = (Nat.log2 (topo.time_coord now + 1) - 1) + 1 := by omega
      rw [hkk]
      exact binarySegments_last_power (topo.time_coord now + 1)
        (Nat.log2 (topo.time_coord now + 1) - 1) 0

/-- C5 witness: at the identity topology and `now = 5` (t = 5, t+1 = 6 =
0b110), the segmentation is the doubled-bits decomposition of 6 —
lengths 2, 2, 1 — tiling [0, 5) with final power 0. -/
theorem telescoping_times_binary_witness :
    (Topology.identity 0).telescoping_times 5
      = binarySegments 6 (31 - leadingZeros32 6) 0
    ∧ tilesB 0 ((Topology.identity 0).telescoping_times 5) = true
    ∧ sumLengths ((Topology.identity 0).telescoping_times 5) = 5
    ∧ ((Topology.identity 0).telescoping_times 5).getLast?.map Segment.power
      = some 0 := by
  have h := telescoping_times_binary (Topology.identity 0) 5 (by decide)
  have hc : (Topology.identity 0).time_coord 5 = 5 := by decide
  rw [hc] at h
  obtain ⟨h1, h2, h3, h4⟩ := h
  exact ⟨h1, h2, h3, by rw [h4]; decide⟩

/-- C5 counterexample: the claim as stated fails on the identity
topology.  At `now = 2` the lengths are `[1, 1]`, not the binary
expansion `[2]` of `(now − origin)/quantum = 2`; at `now = 3` the list
has even length yet its final segment has power 0 (the repository's own
property test asserts the final power is always 0). -/
theorem telescoping_times_claim_false :
    ((Topology.identity 0).telescoping_times 2).map Segment.length = [1, 1]
    ∧ (Topology.identity 0).telescoping_times 3
      = [⟨1, 0⟩, ⟨0, 2⟩]
    ∧ ((Topology.identity 0).telescoping_times 3).length % 2 = 0
    ∧ ((Topology.identity 0).telescoping_times 3).getLast?.map Segment.power
      = some 0 := by
  refine ⟨by decide, by decide, by decide, by decide⟩

/-- C9 (amended): a hash's full raw byte form is exactly 36 bytes — the
32-byte digest followed by the 4-byte DHT location — and constructing a
hash from a raw byte vector of any other length fails; `get_loc` reads
the trailing 4 bytes as a little-endian u32.  (The 3-byte kind prefix
belongs only to the serialized/base64 form, not to the raw vector the
constructor accepts.) -/
theorem hash_raw_form_is_36_bytes (digest loc : List Nat) (t : HashType)
    (hd : digest.length = 32) (hl : loc.length = 4) :
    from_raw_bytes_and_type (digest ++ loc) t = some ⟨digest ++ loc, t⟩
    ∧ (HoloHash.mk (digest ++ loc) t).get_loc = bytes_to_loc loc
    ∧ (HoloHash.mk (digest ++ loc) t).get_bytes = digest
    ∧ ∀ bytes : List Nat, bytes.length ≠ 36 →
        from_raw_bytes_and_type bytes t = none := by
  have hlen : (digest ++ loc).length - 4 = digest.length := by
    simp [List.length_append, hd, hl]
  refine ⟨?_, ?_, ?_, ?_⟩
  · simp [from_raw_bytes_and_type, List.length_append, hd, hl]
  · rw [HoloHash.get_loc]
    simp only [hlen]
    rw [List.drop_left]
  · rw [HoloHash.get_bytes]
    simp only [hlen]
    rw [List.take_left]
  · intro bytes hb
    simp [from_raw_bytes_and_type, hb]

/-- C9 witness: the repository's own test bytes (0xdb everywhere): a
36-byte vector is accepted and its location is the little-endian reading
of the last four bytes. -/
theorem hash_raw_form_is_36_bytes_witness :
    from_raw_bytes_and_type (List.replicate 32 219 ++ [219, 219, 219, 219])
        HashType.Dna
      = some ⟨List.replicate 32 219 ++ [219, 219, 219, 219], HashType.Dna⟩
    ∧ (HoloHash.mk (List.replicate 32 219 ++ [219, 219, 219, 219])
        HashType.Dna).get_loc = bytes_to_loc [219, 219, 219, 219] := by
  have h := hash_raw_form_is_36_bytes (List.replicate 32 219) [219, 219, 219, 219]
    HashType.Dna (by decide) (by decide)
  exact ⟨h.1, h.2.1⟩

/-- C9 counterexample: a 39-byte raw vector (3-byte prefix + 32-byte
digest + 4-byte location, as the claim describes the full form) is
rejected by the constructor, while a 36-byte vector is accepted. -/
theorem hash_39_byte_vector_rejected :
    from_raw_bytes_and_type (List.replicate 39 219) HashType.Header = none
    ∧ (from_raw_bytes_and_type (List.replicate 36 219) HashType.Header).isSome
        = true := by
  decide

/-- C6 (amended): for any arc whose power exceeds `min_power` and whose
doubled count does not overflow a u32, requantizing one power down
succeeds with the count doubled, and requantizing the result back up
returns exactly the original arc. -/
theorem requantize_down_lossless (a : Arq) (min_power : Nat)
    (hp : min_power < a.power) (hc : a.count < 2 ^ 31) :
    a.requantize (a.power - 1)
      = some ⟨a.start, a.power - 1, a.count * 2⟩
    ∧ (a.requantize (a.power - 1)).bind (fun b => b.requantize a.power)
      = some a := by
  obtain ⟨s, p, c⟩ := a
  replace hp : min_power < p := hp
  replace hc : c < 2 ^ 31 := hc
  have h1 : ¬ p < p - 1 := by omega
  have h2 : p - 1 < p := by omega
  have h3 : p - (p - 1) = 1 := by omega
  have e1 : (2 : Nat) ^ 1 % 2 ^ 32 = 2 := by norm_num
  have hlt : c * 2 < 2 ^ 32 := by omega
  have hdown : Holochain.requantize p c (p - 1) = some (p - 1, c * 2) := by
    unfold requantize
    rw [if_neg h1, h3, e1, Nat.mod_eq_of_lt hlt]
  have hup : Holochain.requantize (p - 1) (c * 2) p = some (p, c) := by
    unfold requantize
    rw [if_pos h2, h3, e1]
    have e2 : c * 2 / 2 = c := by omega
    simp [e2]
  constructor
  · simp [Arq.requantize, hdown]
  · simp [Arq.requantize, hdown, hup]

/-- C6 witness: the arc (start 42, power 20, count 10) from the
repository's `arq_requantize` test: down to power 19 doubles the count
to 20, and requantizing back up restores the arc. -/
theorem requantize_down_lossless_witness :
    (Arq.mk 42 20 10).requantize 19 = some (Arq.mk 42 19 20)
    ∧ ((Arq.mk 42 20 10).requantize 19).bind (fun b => b.requantize 20)
      = some (Arq.mk 42 20 10) := by
  have h := requantize_down_lossless (Arq.mk 42 20 10) 0 (by decide) (by decide)
  exact h

/-- C6 counterexample: the claim as stated fails at count `2 ^ 31`
(power 1 > min_power 0): requantizing down wraps the doubled count to 0,
and the round trip returns count 0 instead of the original arc, even
though the count divides back evenly. -/
theorem requantize_down_overflow_counterexample :
    (Arq.mk 0 1 (2 ^ 31)).requantize 0 = some (Arq.mk 0 0 0)
    ∧ ((Arq.mk 0 1 (2 ^ 31)).requantize 0).bind (fun b => b.requantize 1)
      = some (Arq.mk 0 1 0)
    ∧ Arq.mk 0 1 0 ≠ Arq.mk 0 1 (2 ^ 31) := by
  decide

/-- C7: the region-set diff of two region sets — here two equal empty
sets — does not return the empty list of disagreeing regions: the source
body is `todo!("pull out the regions which are different")`, so every
call panics before producing a result. -/
theorem region_set_diff_is_todo_panic :
    RegionSet.diff (RegionSet.Xtcs RegionSetXtcs.empty)
        (RegionSet.Xtcs RegionSetXtcs.empty)
      = Except.error
          (GossipError.todoPanic "pull out the regions which are different") := by
  rfl

/-- C8: the genesis workflow (run here with the DPKI response of the
repository's own test) commits exactly two records — the `Dna` entry
then the `AgentKey` entry — and never commits an
`AgentValidationPackage` record, contradicting the claim's (and the
file's own doc comment's) three-record prefix. -/
theorem genesis_commits_dna_then_agent_key_only :
    Genesis.workflow "mocked dpki request response" 7 5 ⟨[]⟩
      = Except.ok ⟨[Genesis.Entry.Dna 7, Genesis.Entry.AgentKey 5]⟩
    ∧ (Genesis.workflow "mocked dpki request response" 7 5 ⟨[]⟩).toOption.map
        (fun sc => sc.entries.length) = some 2 := by
  constructor <;> rfl

/-- C3: `produce_ops_from_element` is a static table per header kind:
every produced sequence starts with `StoreElement` then
`RegisterAgentActivity`; an `EntryCreate` element adds `StoreEntry`; an
`EntryUpdate` element adds `StoreEntry` then `RegisterReplacedBy`; an
`ElementDelete` element adds `RegisterDeletedBy` then
`RegisterDeletedEntryHeader`; a `LinkAdd`/`LinkRemove` element adds
`RegisterAddLink`/`RegisterRemoveLink`; the five remaining kinds add
nothing — and the function is deterministic. -/
theorem produce_ops_static_table (el : Element) :
    let sig := el.signed_header.signature
    let hdr := el.signed_header.header
    let base := [DhtOp.StoreElement sig hdr el.entry,
                 DhtOp.RegisterAgentActivity sig hdr]
    produce_ops_from_element el = produce_ops_from_element el
    ∧ (∀ h, hdr = Header.Dna h → produce_ops_from_element el = Except.ok base)
    ∧ (∀ h, hdr = Header.ChainOpen h → produce_ops_from_element el = Except.ok base)
    ∧ (∀ h, hdr = Header.ChainClose h → produce_ops_from_element el = Except.ok base)
    ∧ (∀ h, hdr = Header.AgentValidationPkg h →
        produce_ops_from_element el = Except.ok base)
    ∧ (∀ h, hdr = Header.InitZomesComplete h →
        produce_ops_from_element el = Except.ok base)
    ∧ (∀ h entry, hdr = Header.EntryCreate h → el.entry = some entry →
        produce_ops_from_element el
          = Except.ok (base ++ [DhtOp.StoreEntry sig (NewEntryHeader.Create h) entry]))
    ∧ (∀ h entry, hdr = Header.EntryUpdate h → el.entry = some entry →
        produce_ops_from_element el
          = Except.ok (base ++ [DhtOp.StoreEntry sig (NewEntryHeader.Update h) entry,
              DhtOp.RegisterReplacedBy sig h (some entry)]))
    ∧ (∀ h, hdr = Header.ElementDelete h →
        produce_ops_from_element el
          = Except.ok (base ++ [DhtOp.RegisterDeletedBy sig h,
              DhtOp.RegisterDeletedEntryHeader sig h]))
    ∧ (∀ h, hdr = Header.LinkAdd h →
        produce_ops_from_element el
          = Except.ok (base ++ [DhtOp.RegisterAddLink sig h]))
    ∧ (∀ h, hdr = Header.LinkRemove h →
        produce_ops_from_element el
          = Except.ok (base ++ [DhtOp.RegisterRemoveLink sig h])) := by
  obtain ⟨⟨hdr, hh, sig⟩, maybe_entry⟩ := el
  refine ⟨rfl, ?_, ?_, ?_, ?_, ?_, ?_, ?_, ?_, ?_, ?_⟩ <;>
    first
      | (intro h heq
         subst heq
         simp [produce_ops_from_element])
      | (intro h entry heq hentry
         subst heq
         simp only at hentry
         subst hentry
         simp [produce_ops_from_element])

/-- C3 witness: a concrete `EntryCreate` element yields exactly
`StoreElement`, `RegisterAgentActivity`, `StoreEntry` in order. -/
theorem produce_ops_static_table_witness :
    produce_ops_from_element
        ⟨⟨Header.EntryCreate ⟨1, 10, 3, 4, 0, 7⟩, 9, 77⟩, some 42⟩
      = Except.ok
          [DhtOp.StoreElement 77 (Header.EntryCreate ⟨1, 10, 3, 4, 0, 7⟩) (some 42),
           DhtOp.RegisterAgentActivity 77 (Header.EntryCreate ⟨1, 10, 3, 4, 0, 7⟩),
           DhtOp.StoreEntry 77 (NewEntryHeader.Create ⟨1, 10, 3, 4, 0, 7⟩) 42] := by
  have h := (produce_ops_static_table
    ⟨⟨Header.EntryCreate ⟨1, 10, 3, 4, 0, 7⟩, 9, 77⟩, some 42⟩).2.2.2.2.2.2.1
  exact h ⟨1, 10, 3, 4, 0, 7⟩ 42 rfl rfl

/-- Without element data, integration never touches the element store. -/
theorem integrate_single_no_data_cas (hm : HashModel) (es : ChainCasBuf)
    (ms : MetadataBuf) (v : IntegrationQueueValue) (now : Nat) :
    (integrate_single_dht_op hm es ms v false now).1 = es := by
  obtain ⟨op, vs⟩ := v
  cases op with
  | StoreElement sig header maybe_entry =>
    simp [integrate_single_dht_op]
    split <;> rfl
  | StoreEntry sig neh entry => rfl
  | RegisterAgentActivity sig header => rfl
  | RegisterReplacedBy sig eu me =>
    cases hif : eu.intended_for with
    | Header => simp [integrate_single_dht_op, dht_op_to_light_basis, hif]
    | Entry =>
      cases hx : header_entry_hash es eu.replaces_address with
      | none => simp [integrate_single_dht_op, hif, hx]
      | some eh => simp [integrate_single_dht_op, dht_op_to_light_basis, hif, hx]
  | RegisterDeletedBy sig ed =>
    cases hx : header_entry_hash es ed.removes_address with
    | none => simp [integrate_single_dht_op, hx]
    | some eh => simp [integrate_single_dht_op, dht_op_to_light_basis, hx]
  | RegisterDeletedEntryHeader sig ed =>
    cases hx : header_entry_hash es ed.removes_address with
    | none => simp [integrate_single_dht_op, hx]
    | some eh => simp [integrate_single_dht_op, dht_op_to_light_basis, hx]
  | RegisterAddLink sig la => rfl
  | RegisterRemoveLink sig lr =>
    cases hx : es.get_entry lr.base_address with
    | none => simp [integrate_single_dht_op, hx]
    | some e => simp [integrate_single_dht_op, dht_op_to_light_basis, hx]

/-- Without element data, integration with present dependencies never
defers. -/
theorem integrate_single_deps_not_deferred (hm : HashModel) (es : ChainCasBuf)
    (ms : MetadataBuf) (op : DhtOp) (vs : ValidationStatus) (now : Nat)
    (h : opDepsPresent op es = true) (dv : IntegrationQueueValue) :
    (integrate_single_dht_op hm es ms ⟨op, vs⟩ false now).2.2
      ≠ Outcome.Deferred dv := by
  cases op with
  | StoreElement sig header maybe_entry =>
    simp [integrate_single_dht_op, dht_op_to_light_basis]
  | StoreEntry sig neh entry =>
    simp [integrate_single_dht_op, dht_op_to_light_basis]
  | RegisterAgentActivity sig header =>
    simp [integrate_single_dht_op, dht_op_to_light_basis]
  | RegisterReplacedBy sig eu me =>
    cases hif : eu.intended_for with
    | Header => simp [integrate_single_dht_op, dht_op_to_light_basis, hif]
    | Entry =>
      cases hx : header_entry_hash es eu.replaces_address with
      | none => simp [opDepsPresent, hif, hx] at h
      | some eh => simp [integrate_single_dht_op, dht_op_to_light_basis, hif, hx]
  | RegisterDeletedBy sig ed =>
    cases hx : header_entry_hash es ed.removes_address with
    | none => simp [opDepsPresent, hx] at h
    | some eh => simp [integrate_single_dht_op, dht_op_to_light_basis, hx]
  | RegisterDeletedEntryHeader sig ed =>
    cases hx : header_entry_hash es ed.removes_address with
    | none => simp [opDepsPresent, hx] at h
    | some eh => simp [integrate_single_dht_op, dht_op_to_light_basis, hx]
  | RegisterAddLink sig la =>
    simp [integrate_single_dht_op, dht_op_to_light_basis]
  | RegisterRemoveLink sig lr =>
    cases hx : es.get_entry lr.base_address with
    | none => simp [opDepsPresent, hx] at h
    | some e => simp [integrate_single_dht_op, dht_op_to_light_basis, hx]

/-- Without element data, integration with a missing dependency defers
the op unchanged and mutates nothing. -/
theorem integrate_single_missing_deps_deferred (hm : HashModel)
    (es : ChainCasBuf) (ms : MetadataBuf) (op : DhtOp) (vs : ValidationStatus)
    (now : Nat) (h : opDepsPresent op es = false) :
    integrate_single_dht_op hm es ms ⟨op, vs⟩ false now
      = (es, ms, Outcome.Deferred ⟨op, vs⟩) := by
  cases op with
  | StoreElement sig header maybe_entry => simp [opDepsPresent] at h
  | StoreEntry sig neh entry => simp [opDepsPresent] at h
  | RegisterAgentActivity sig header => simp [opDepsPresent] at h
  | RegisterReplacedBy sig eu me =>
    cases hif : eu.intended_for with
    | Header => simp [opDepsPresent, hif] at h
    | Entry =>
      cases hx : header_entry_hash es eu.replaces_address with
      | none => simp [integrate_single_dht_op, hif, hx]
      | some eh => simp [opDepsPresent, hif, hx] at h
  | RegisterDeletedBy sig ed =>
    cases hx : header_entry_hash es ed.removes_address with
    | none => simp [integrate_single_dht_op, hx]
    | some eh => simp [opDepsPresent, hx] at h
  | RegisterDeletedEntryHeader sig ed =>
    cases hx : header_entry_hash es ed.removes_address with
    | none => simp [integrate_single_dht_op, hx]
    | some eh => simp [opDepsPresent, hx] at h
  | RegisterAddLink sig la => simp [opDepsPresent] at h
  | RegisterRemoveLink sig lr =>
    cases hx : es.get_entry lr.base_address with
    | none => simp [integrate_single_dht_op, hx]
    | some e => simp [opDepsPresent, hx] at h

/-- With all dependencies present, the inline-integration loop succeeds. -/
theorem integrate_to_cache_loop_ok (hm : HashModel) (now : Nat) :
    ∀ (ops : List DhtOp) (es : ChainCasBuf) (ms : MetadataBuf),
    (∀ op ∈ ops, opDepsPresent op es = true) →
    ∃ r, integrate_to_cache_loop hm now es ms ops = Except.ok r
  | [], es, ms, _ => ⟨(es, ms), rfl⟩
  | op :: rest, es, ms, h => by
    rcases hsingle : integrate_single_dht_op hm es ms ⟨op, ValidationStatus.Valid⟩
        false now with ⟨es', ms', out⟩
    have hes : es' = es := by
      have hc := integrate_single_no_data_cas hm es ms ⟨op, ValidationStatus.Valid⟩ now
      rw [hsingle] at hc
      exact hc
    cases out with
    | Deferred dv =>
      exfalso
      have hnd := integrate_single_deps_not_deferred hm es ms op
        ValidationStatus.Valid now (h op (List.mem_cons_self op rest)) dv
      rw [hsingle] at hnd
      exact hnd rfl
    | Integrated iv =>
      rw [hes] at hsingle
      obtain ⟨r, hr⟩ := integrate_to_cache_loop_ok hm now rest es ms'
        (fun o ho => h o (List.mem_cons_of_mem op ho))
      exact ⟨r, by rw [integrate_to_cache_loop, hsingle]; exact hr⟩

/-- With some dependency missing, the inline-integration loop hits the
`unreachable!` branch. -/
theorem integrate_to_cache_loop_panic (hm : HashModel) (now : Nat) :
    ∀ (ops : List DhtOp) (es : ChainCasBuf) (ms : MetadataBuf),
    (∃ op ∈ ops, opDepsPresent op es = false) →
    ∃ v, integrate_to_cache_loop hm now es ms ops
      = Except.error (IntegrateToCacheErr.unreachableDeferred v)
  | [], _, _, h => by simp at h
  | op :: rest, es, ms, h => by
    cases hdep : opDepsPresent op es with
    | false =>
      have hsingle := integrate_single_missing_deps_deferred hm es ms op
        ValidationStatus.Valid now hdep
      exact ⟨⟨op, ValidationStatus.Valid⟩, by
        rw [integrate_to_cache_loop, hsingle]⟩
    | true =>
      rcases hsingle : integrate_single_dht_op hm es ms ⟨op, ValidationStatus.Valid⟩
          false now with ⟨es', ms', out⟩
      have hes : es' = es := by
        have hc := integrate_single_no_data_cas hm es ms ⟨op, ValidationStatus.Valid⟩ now
        rw [hsingle] at hc
        exact hc
      have hrest : ∃ o ∈ rest, opDepsPresent o es = false := by
        obtain ⟨o, ho, hof⟩ := h
        rcases List.mem_cons.mp ho with heq | hmem
        · subst heq; rw [hdep] at hof; cases hof
        · exact ⟨o, hmem, hof⟩
      cases out with
      | Deferred dv =>
        exfalso
        have hnd := integrate_single_deps_not_deferred hm es ms op
          ValidationStatus.Valid now hdep dv
        rw [hsingle] at hnd
        exact hnd rfl
      | Integrated iv =>
        rw [hes] at hsingle
        obtain ⟨v, hv⟩ := integrate_to_cache_loop_panic hm now rest es ms' hrest
        exact ⟨v, by rw [integrate_to_cache_loop, hsingle]; exact hv⟩

/-- C10: inline cache integration is total exactly under the dependency
precondition: with every datum referenced by the element's own ops
already in the element store, `integrate_to_cache` treats each derived
op as `Valid` and returns `Ok`; with any such datum missing, it hits the
`unreachable!` panic branch on the deferred op. -/
theorem integrate_to_cache_total_iff_deps (hm : HashModel) (now : Nat)
    (el : Element) (es : ChainCasBuf) (ms : MetadataBuf) (ops : List DhtOp)
    (hops : produce_ops_from_element el = Except.ok ops) :
    ((∀ op ∈ ops, opDepsPresent op es = true) →
      ∃ r, integrate_to_cache hm now el es ms = Except.ok r)
    ∧ ((∃ op ∈ ops, opDepsPresent op es = false) →
      ∃ v, integrate_to_cache hm now el es ms
        = Except.error (IntegrateToCacheErr.unreachableDeferred v)) := by
  constructor
  · intro hdeps
    obtain ⟨r, hr⟩ := integrate_to_cache_loop_ok hm now ops es ms hdeps
    exact ⟨r, by rw [integrate_to_cache, hops]; exact hr⟩
  · intro hdeps
    obtain ⟨v, hv⟩ := integrate_to_cache_loop_panic hm now ops es ms hdeps
    exact ⟨v, by rw [integrate_to_cache, hops]; exact hv⟩

/-- Writing a key makes it readable. -/
theorem kvGet_kvPut {κ α : Type} [DecidableEq κ] (k : κ) (v : α) :
    ∀ l : List (κ × α), kvGet (kvPut l k v) k = some v
  | [] => by simp [kvGet, kvPut, List.find?]
  | p :: rest => by
    by_cases hp : p.1 = k
    · simp [kvPut, hp, kvGet, List.find?]
    · simp only [kvPut, if_neg hp, kvGet]
      rw [List.find?_cons_of_neg _ (by simp [hp])]
      exact kvGet_kvPut k v rest

/-- A deferred op (with element data) leaves both stores untouched,
returns the queue value unchanged, and defers at every integration
timestamp. -/
theorem integrate_single_deferred_frozen (hm : HashModel) (es : ChainCasBuf)
    (ms : MetadataBuf) (v : IntegrationQueueValue) (now1 : Nat)
    (es' : ChainCasBuf) (ms' : MetadataBuf) (dv : IntegrationQueueValue)
    (h : integrate_single_dht_op hm es ms v true now1
      = (es', ms', Outcome.Deferred dv)) :
    es' = es ∧ ms' = ms ∧ dv = v
    ∧ ∀ now2, integrate_single_dht_op hm es ms v true now2
        = (es, ms, Outcome.Deferred v) := by
  obtain ⟨op, vs⟩ := v
  cases op with
  | StoreElement sig header maybe_entry =>
    simp [integrate_single_dht_op, dht_op_to_light_basis] at h
  | StoreEntry sig neh entry =>
    simp [integrate_single_dht_op, dht_op_to_light_basis] at h
  | RegisterAgentActivity sig header =>
    simp [integrate_single_dht_op, dht_op_to_light_basis] at h
  | RegisterReplacedBy sig eu me =>
    cases hif : eu.intended_for with
    | Header => simp [integrate_single_dht_op, dht_op_to_light_basis, hif] at h
    | Entry =>
      cases hx : header_entry_hash es eu.replaces_address with
      | some eh =>
        simp [integrate_single_dht_op, dht_op_to_light_basis, hif, hx] at h
      | none =>
        have hc : integrate_single_dht_op hm es ms
            ⟨DhtOp.RegisterReplacedBy sig eu me, vs⟩ true now1
            = (es, ms, Outcome.Deferred ⟨DhtOp.RegisterReplacedBy sig eu me, vs⟩) := by
          simp [integrate_single_dht_op, hif, hx]
        rw [hc] at h
        injection h with h1 h23
        injection h23 with h2 h3
        injection h3 with h3v
        exact ⟨h1.symm, h2.symm, h3v.symm,
          fun now2 => by simp [integrate_single_dht_op, hif, hx]⟩
  | RegisterDeletedBy sig ed =>
    cases hx : header_entry_hash es ed.removes_address with
    | some eh => simp [integrate_single_dht_op, dht_op_to_light_basis, hx] at h
    | none =>
      have hc : integrate_single_dht_op hm es ms
          ⟨DhtOp.RegisterDeletedBy sig ed, vs⟩ true now1
          = (es, ms, Outcome.Deferred ⟨DhtOp.RegisterDeletedBy sig ed, vs⟩) := by
        simp [integrate_single_dht_op, hx]
      rw [hc] at h
      injection h with h1 h23
      injection h23 with h2 h3
      injection h3 with h3v
      exact ⟨h1.symm, h2.symm, h3v.symm,
        fun now2 => by simp [integrate_single_dht_op, hx]⟩
  | RegisterDeletedEntryHeader sig ed =>
    cases hx : header_entry_hash es ed.removes_address with
    | some eh => simp [integrate_single_dht_op, dht_op_to_light_basis, hx] at h
    | none =>
      have hc : integrate_single_dht_op hm es ms
          ⟨DhtOp.RegisterDeletedEntryHeader sig ed, vs⟩ true now1
          = (es, ms, Outcome.Deferred ⟨DhtOp.RegisterDeletedEntryHeader sig ed, vs⟩) := by
        simp [integrate_single_dht_op, hx]
      rw [hc] at h
      injection h with h1 h23
      injection h23 with h2 h3
      injection h3 with h3v
      exact ⟨h1.symm, h2.symm, h3v.symm,
        fun now2 => by simp [integrate_single_dht_op, hx]⟩
  | RegisterAddLink sig la =>
    simp [integrate_single_dht_op, dht_op_to_light_basis] at h
  | RegisterRemoveLink sig lr =>
    cases hx : es.get_entry lr.base_address with
    | some e => simp [integrate_single_dht_op, dht_op_to_light_basis, hx] at h
    | none =>
      have hc : integrate_single_dht_op hm es ms
          ⟨DhtOp.RegisterRemoveLink sig lr, vs⟩ true now1
          = (es, ms, Outcome.Deferred ⟨DhtOp.RegisterRemoveLink sig lr, vs⟩) := by
        simp [integrate_single_dht_op, hx]
      rw [hc] at h
      injection h with h1 h23
      injection h23 with h2 h3
      injection h3 with h3v
      exact ⟨h1.symm, h2.symm, h3v.symm,
        fun now2 => by simp [integrate_single_dht_op, hx]⟩

/-- The retry loop on a singleton queue whose op is already integrated:
nothing happens. -/
theorem integration_loop_singleton_present (hm : HashModel) (now : Nat)
    (cas : ChainCasBuf) (meta : MetadataBuf)
    (integrated : List (DhtOpHash × IntegratedDhtOpsValue)) (uf : DhtOpHash)
    (v : IntegrationQueueValue) (total : Nat)
    (h : (kvGet integrated uf).isSome) :
    integration_loop hm now cas meta integrated [(uf, v)] total
      = ⟨cas, meta, integrated, [], total⟩ := by
  rw [integration_loop]
  have hn : (kvGet integrated uf).isNone = false := by
    cases hx : kvGet integrated uf with
    | none => rw [hx] at h; cases h
    | some iv => rfl
  simp [integration_pass, hn]

/-- The retry loop on a singleton queue whose op integrates. -/
theorem integration_loop_singleton_integrated (hm : HashModel) (now : Nat)
    (cas : ChainCasBuf) (meta : MetadataBuf)
    (integrated : List (DhtOpHash × IntegratedDhtOpsValue)) (uf : DhtOpHash)
    (v : IntegrationQueueValue) (total : Nat) (cas' : ChainCasBuf)
    (meta' : MetadataBuf) (iv : IntegratedDhtOpsValue)
    (hget : kvGet integrated uf = none)
    (hs : integrate_single_dht_op hm cas meta v true now
      = (cas', meta', Outcome.Integrated iv)) :
    integration_loop hm now cas meta integrated [(uf, v)] total
      = ⟨cas', meta', kvPut integrated uf iv, [], total + 1⟩ := by
  rw [integration_loop]
  simp [integration_pass, hget, hs]

/-- The retry loop on a singleton queue whose op defers. -/
theorem integration_loop_singleton_deferred (hm : HashModel) (now : Nat)
    (cas : ChainCasBuf) (meta : MetadataBuf)
    (integrated : List (DhtOpHash × IntegratedDhtOpsValue)) (uf : DhtOpHash)
    (v : IntegrationQueueValue) (total : Nat) (cas' : ChainCasBuf)
    (meta' : MetadataBuf) (dv : IntegrationQueueValue)
    (hget : kvGet integrated uf = none)
    (hs : integrate_single_dht_op hm cas meta v true now
      = (cas', meta', Outcome.Deferred dv)) :
    integration_loop hm now cas meta integrated [(uf, v)] total
      = ⟨cas', meta', integrated, [(uf, dv)], total⟩ := by
  rw [integration_loop]
  simp [integration_pass, hget, hs]

/-- C4: integration is idempotent.  Running the integration workflow on a
queue holding an op whose hash is already in the integrated-ops index
leaves the element store, the metadata index and the integrated-ops
index unchanged; and running the workflow a second time on the same op
(at any later timestamp) leaves all three exactly as after the first
run. -/
theorem integration_idempotent (hm : HashModel) (now1 now2 : Nat)
    (ws : IntegrateDhtOpsWorkspace) (v : IntegrationQueueValue) :
    ((kvGet ws.integrated_dht_ops v.op.as_unique_form).isSome →
      ((integrate_dht_ops_workflow hm now1
          ⟨[v], ws.integrated_dht_ops, ws.cas, ws.meta⟩).1.cas = ws.cas
        ∧ (integrate_dht_ops_workflow hm now1
            ⟨[v], ws.integrated_dht_ops, ws.cas, ws.meta⟩).1.meta = ws.meta
        ∧ (integrate_dht_ops_workflow hm now1
            ⟨[v], ws.integrated_dht_ops, ws.cas, ws.meta⟩).1.integrated_dht_ops
          = ws.integrated_dht_ops))
    ∧ (let s1 := (integrate_dht_ops_workflow hm now1
          ⟨[v], ws.integrated_dht_ops, ws.cas, ws.meta⟩).1
       let s2 := (integrate_dht_ops_workflow hm now2
          ⟨[v], s1.integrated_dht_ops, s1.cas, s1.meta⟩).1
       s2.cas = s1.cas ∧ s2.meta = s1.meta
        ∧ s2.integrated_dht_ops = s1.integrated_dht_ops) := by
  have hpresent : ∀ (now : Nat) (cas : ChainCasBuf) (meta : MetadataBuf)
      (integrated : List (DhtOpHash × IntegratedDhtOpsValue)),
      (kvGet integrated v.op.as_unique_form).isSome →
      (integrate_dht_ops_workflow hm now ⟨[v], integrated, cas, meta⟩).1
        = ⟨[], integrated, cas, meta⟩ := by
    intro now cas meta integrated h
    rw [integrate_dht_ops_workflow]
    simp only [List.map]
    rw [integration_loop_singleton_present hm now cas meta integrated
      v.op.as_unique_form v 0 h]
    rfl
  constructor
  · intro h
    rw [hpresent now1 ws.cas ws.meta ws.integrated_dht_ops h]
    exact ⟨rfl, rfl, rfl⟩
  · cases hget : kvGet ws.integrated_dht_ops v.op.as_unique_form with
    | some iv0 =>
      have h1 := hpresent now1 ws.cas ws.meta ws.integrated_dht_ops
        (by rw [hget]; rfl)
      rw [h1]
      have h2 := hpresent now2 ws.cas ws.meta ws.integrated_dht_ops
        (by rw [hget]; rfl)
      simp only []
      rw [h2]
      exact ⟨rfl, rfl, rfl⟩
    | none =>
      rcases hs : integrate_single_dht_op hm ws.cas ws.meta v true now1
          with ⟨cas', meta', out⟩
      cases out with
      | Integrated iv =>
        have h1 : (integrate_dht_ops_workflow hm now1
            ⟨[v], ws.integrated_dht_ops, ws.cas, ws.meta⟩).1
            = ⟨[], kvPut ws.integrated_dht_ops v.op.as_unique_form iv,
                cas', meta'⟩ := by
          rw [integrate_dht_ops_workflow]
          simp only [List.map]
          rw [integration_loop_singleton_integrated hm now1 ws.cas ws.meta
            ws.integrated_dht_ops v.op.as_unique_form v 0 cas' meta' iv hget hs]
          rfl
        rw [h1]
        have h2 := hpresent now2 cas' meta'
          (kvPut ws.integrated_dht_ops v.op.as_unique_form iv)
          (by rw [kvGet_kvPut]; rfl)
        simp only []
        rw [h2]
        exact ⟨rfl, rfl, rfl⟩
      | Deferred dv =>
        obtain ⟨hes, hms, hdv, hall⟩ :=
          integrate_single_deferred_frozen hm ws.cas ws.meta v now1 cas' meta' dv hs
        rw [hes, hms, hdv] at hs
        have h1 : (integrate_dht_ops_workflow hm now1
            ⟨[v], ws.integrated_dht_ops, ws.cas, ws.meta⟩).1
            = ⟨[v], ws.integrated_dht_ops, ws.cas, ws.meta⟩ := by
          rw [integrate_dht_ops_workflow]
          simp only [List.map]
          rw [integration_loop_singleton_deferred hm now1 ws.cas ws.meta
            ws.integrated_dht_ops v.op.as_unique_form v 0 ws.cas ws.meta v hget hs]
          rfl
        rw [h1]
        have h2 : (integrate_dht_ops_workflow hm now2
            ⟨[v], ws.integrated_dht_ops, ws.cas, ws.meta⟩).1
            = ⟨[v], ws.integrated_dht_ops, ws.cas, ws.meta⟩ := by
          rw [integrate_dht_ops_workflow]
          simp only [List.map]
          rw [integration_loop_singleton_deferred hm now2 ws.cas ws.meta
            ws.integrated_dht_ops v.op.as_unique_form v 0 ws.cas ws.meta v hget
            (hall now2)]
          rfl
        simp only []
        rw [h2]
        exact ⟨rfl, rfl, rfl⟩

/-- C4 witness: a `Dna`-header `StoreElement` op integrates once into
empty stores; re-running the workflow on the same op leaves the element
store, metadata index and integrated index exactly as after the first
run. -/
theorem integration_idempotent_witness :
    (kvGet (([] : List (DhtOpHash × IntegratedDhtOpsValue)))
        (DhtOp.StoreElement 77 (Header.Dna ⟨1, 10, 2⟩) none).as_unique_form).isSome
      = false
    ∧ (let ws : IntegrateDhtOpsWorkspace :=
          ⟨[], [], ⟨[], []⟩, ⟨[], [], [], [], [], [], [], [], []⟩⟩
       let v : IntegrationQueueValue :=
          ⟨DhtOp.StoreElement 77 (Header.Dna ⟨1, 10, 2⟩) none, ValidationStatus.Valid⟩
       let s1 := (integrate_dht_ops_workflow ⟨fun _ => 3, fun _ => 0⟩ 100
          ⟨[v], ws.integrated_dht_ops, ws.cas, ws.meta⟩).1
       let s2 := (integrate_dht_ops_workflow ⟨fun _ => 3, fun _ => 0⟩ 200
          ⟨[v], s1.integrated_dht_ops, s1.cas, s1.meta⟩).1
       s2.cas = s1.cas ∧ s2.meta = s1.meta
        ∧ s2.integrated_dht_ops = s1.integrated_dht_ops) := by
  refine ⟨rfl, ?_⟩
  exact (integration_idempotent ⟨fun _ => 3, fun _ => 0⟩ 100 200
    ⟨[], [], ⟨[], []⟩, ⟨[], [], [], [], [], [], [], [], []⟩⟩
    ⟨DhtOp.StoreElement 77 (Header.Dna ⟨1, 10, 2⟩) none, ValidationStatus.Valid⟩).2

/-- The `(timestamp, header_hash)` order is reflexive. -/
theorem TimedHeaderHash.le_refl (a : TimedHeaderHash) : a.le a = true := by
  simp [TimedHeaderHash.le]

/-- The `(timestamp, header_hash)` order is total. -/
theorem TimedHeaderHash.le_total (a b : TimedHeaderHash) :
    a.le b = true ∨ b.le a = true := by
  simp only [TimedHeaderHash.le, decide_eq_true_eq]
  omega

/-- The `(timestamp, header_hash)` order is transitive. -/
theorem TimedHeaderHash.le_trans (a b c : TimedHeaderHash)
    (hab : a.le b = true) (hbc : b.le c = true) : a.le c = true := by
  simp only [TimedHeaderHash.le, decide_eq_true_eq] at *
  omega

/-- The fold inside `minTimedHeader`, seeded with an accumulator, returns
a minimum of the accumulator and the list. -/
theorem minTimedHeader_fold_spec (l : List TimedHeaderHash) :
    ∀ m0 : TimedHeaderHash,
    ∃ m, l.foldl
        (fun acc th =>
          match acc with
          | none => some th
          | some best => if th.le best ∧ ¬best.le th then some th else some best)
        (some m0) = some m
      ∧ (m = m0 ∨ m ∈ l) ∧ m.le m0 = true ∧ ∀ x ∈ l, m.le x = true := by
  induction l with
  | nil =>
    intro m0
    exact ⟨m0, rfl, Or.inl rfl, TimedHeaderHash.le_refl m0, by simp⟩
  | cons x rest ih =>
    intro m0
    by_cases hcond : x.le m0 = true ∧ ¬ m0.le x = true
    · obtain ⟨m, hfold, hmem, hle, hall⟩ := ih x
      have hstep : (if x.le m0 = true ∧ ¬ m0.le x = true then some x else some m0)
          = some x := if_pos hcond
      refine ⟨m, ?_, ?_, ?_, ?_⟩
      · rw [List.foldl_cons]
        dsimp only
        rw [hstep]
        exact hfold
      · rcases hmem with h | h
        · exact Or.inr (h ▸ List.mem_cons_self x rest)
        · exact Or.inr (List.mem_cons_of_mem x h)
      · exact TimedHeaderHash.le_trans m x m0 hle hcond.1
      · intro y hy
        rcases List.mem_cons.mp hy with h | h
        · exact h ▸ hle
        · exact hall y h
    · obtain ⟨m, hfold, hmem, hle, hall⟩ := ih m0
      have hm0x : m0.le x = true := by
        rcases TimedHeaderHash.le_total x m0 with h | h
        · by_cases h2 : m0.le x = true
          · exact h2
          · exact absurd ⟨h, h2⟩ hcond
        · exact h
      have hstep : (if x.le m0 = true ∧ ¬ m0.le x = true then some x else some m0)
          = some m0 := if_neg hcond
      refine ⟨m, ?_, ?_, hle, ?_⟩
      · rw [List.foldl_cons]
        dsimp only
        rw [hstep]
        exact hfold
      · rcases hmem with h | h
        · exact Or.inl h
        · exact Or.inr (List.mem_cons_of_mem x h)
      · intro y hy
        rcases List.mem_cons.mp hy with h | h
        · exact h ▸ TimedHeaderHash.le_trans m m0 x hle hm0x
        · exact hall y h

/-- `minTimedHeader` of a nonempty list is a member that is below every
member in the `(timestamp, header_hash)` order. -/
theorem minTimedHeader_spec (l : List TimedHeaderHash) (hne : l ≠ []) :
    ∃ m, minTimedHeader l = some m ∧ m ∈ l ∧ ∀ x ∈ l, m.le x = true := by
  cases l with
  | nil => exact absurd rfl hne
  | cons x rest =>
    obtain ⟨m, hfold, hmem, hle, hall⟩ := minTimedHeader_fold_spec rest x
    refine ⟨m, ?_, ?_, ?_⟩
    · simpa [minTimedHeader, List.foldl_cons] using hfold
    · rcases hmem with h | h
      · exact h ▸ List.mem_cons_self x rest
      · exact List.mem_cons_of_mem x h
    · intro y hy
      rcases List.mem_cons.mp hy with h | h
      · exact h ▸ hle
      · exact hall y h

/-- C2 (amended): after merging the network responses for an entry into
the cache, a `Live` status makes the cascade select the oldest live
new-entry header — a header on the entry with no registered delete,
minimal in the `(timestamp, lexicographic header hash)` order among all
no-delete headers — and return that header's element *provided it is
locally available* (in the vault or the merged cache); a `Dead` status
returns `none`.  The locality proviso is necessary: when the element is
not local the code falls through to `dht_get_header`, whose inverted
tombstone check returns `none` for a live header, so the unconditional
claim fails (see the counterexample). -/
theorem dht_get_entry_oldest_live (hm : HashModel) (element_vault : ChainCasBuf)
    (meta_vault : MetadataBuf) (element_cache : ChainCasBuf)
    (meta_cache : MetadataBuf) (entry_network header_network : List GetElementResponse)
    (entry_hash : EntryHash) (ec : ChainCasBuf) (mc : MetadataBuf)
    (hmerge : fetch_element_via_entry hm entry_hash entry_network element_cache
      meta_cache = (ec, mc)) :
    (mc.get_dht_status entry_hash = EntryDhtStatus.Live →
      ∃ oldest,
        oldest_live_header mc entry_hash = some oldest
        ∧ oldest ∈ mc.get_headers entry_hash
        ∧ mc.get_deletes_on_header oldest.header_hash = []
        ∧ (∀ th ∈ mc.get_headers entry_hash,
            mc.get_deletes_on_header th.header_hash = [] → oldest.le th = true)
        ∧ ∀ el, get_element_local_raw element_vault ec oldest.header_hash = some el →
            dht_get_entry hm element_vault meta_vault element_cache meta_cache
              entry_network header_network entry_hash
              = Except.ok ((ec, mc), some el))
    ∧ (mc.get_dht_status entry_hash = EntryDhtStatus.Dead →
        dht_get_entry hm element_vault meta_vault element_cache meta_cache
          entry_network header_network entry_hash = Except.ok ((ec, mc), none)) := by
  constructor
  · intro hlive
    have hfil : (mc.get_headers entry_hash).filter
        (fun th => (mc.get_deletes_on_header th.header_hash).head?.isNone) ≠ [] := by
      rw [MetadataBuf.get_dht_status] at hlive
      by_cases hc : mc.get_headers entry_hash ≠ []
        ∧ (mc.get_headers entry_hash).any
          (fun th => (mc.get_deletes_on_header th.header_hash).isEmpty)
      · obtain ⟨th, hth, hemp⟩ := List.any_eq_true.mp hc.2
        intro hnil
        have : th ∈ (mc.get_headers entry_hash).filter
            (fun th => (mc.get_deletes_on_header th.header_hash).head?.isNone) := by
          refine List.mem_filter.mpr ⟨hth, ?_⟩
          have := List.isEmpty_iff.mp hemp
          simp [this]
        rw [hnil] at this
        cases this
      · rw [if_neg hc] at hlive
        cases hlive
    obtain ⟨m, hmin, hmem, hall⟩ := minTimedHeader_spec _ hfil
    have hold : oldest_live_header mc entry_hash = some m := hmin
    have hmem' := List.mem_filter.mp hmem
    have hnodel : mc.get_deletes_on_header m.header_hash = [] := by
      have := hmem'.2
      simp only [Option.isNone_iff_eq_none, List.head?_eq_none_iff] at this
      exact this
    refine ⟨m, hold, hmem'.1, hnodel, ?_, ?_⟩
    · intro th hth hdel
      exact hall th (List.mem_filter.mpr ⟨hth, by simp [hdel]⟩)
    · intro el hel
      unfold dht_get_entry
      rw [hmerge]
      dsimp only
      rw [hlive]
      dsimp only
      rw [hold]
      dsimp only
      rw [hel]
  · intro hdead
    unfold dht_get_entry
    rw [hmerge]
    dsimp only
    rw [hdead]

/-- C2 witness: an entry (hash 7) with two new-entry headers, the older
one (timestamp 5, hash 100) deleted and the younger one (timestamp 3,
hash 200) live: the cascade returns the element of the live header with
the smallest timestamp. -/
theorem dht_get_entry_oldest_live_witness :
    dht_get_entry ⟨fun _ => 0, fun e => e⟩
        ⟨[(200, (⟨Header.Dna ⟨1, 3, 0⟩, 200, 9⟩, none))], []⟩
        ⟨[], [], [], [], [], [], [], [], []⟩
        ⟨[], []⟩
        ⟨[(7, ⟨5, 100⟩), (7, ⟨3, 200⟩)], [], [], [], [], [(100, ⟨9, 300⟩)], [], [], []⟩
        [] [] 7
      = Except.ok ((⟨[], []⟩,
          ⟨[(7, ⟨5, 100⟩), (7, ⟨3, 200⟩)], [], [], [], [], [(100, ⟨9, 300⟩)],
            [], [], []⟩),
          some ⟨⟨Header.Dna ⟨1, 3, 0⟩, 200, 9⟩, none⟩) := by
  have h := (dht_get_entry_oldest_live ⟨fun _ => 0, fun e => e⟩
    ⟨[(200, (⟨Header.Dna ⟨1, 3, 0⟩, 200, 9⟩, none))], []⟩
    ⟨[], [], [], [], [], [], [], [], []⟩ ⟨[], []⟩
    ⟨[(7, ⟨5, 100⟩), (7, ⟨3, 200⟩)], [], [], [], [], [(100, ⟨9, 300⟩)], [], [], []⟩
    [] [] 7 ⟨[], []⟩
    ⟨[(7, ⟨5, 100⟩), (7, ⟨3, 200⟩)], [], [], [], [], [(100, ⟨9, 300⟩)], [], [], []⟩
    rfl).1 (by decide)
  obtain ⟨oldest, hold, hmem, hnodel, hmin, happ⟩ := h
  have hco : some oldest = some (⟨3, 200⟩ : TimedHeaderHash) := by
    rw [← hold]
    decide
  injection hco with hco'
  subst hco'
  exact happ ⟨⟨Header.Dna ⟨1, 3, 0⟩, 200, 9⟩, none⟩ rfl

/-- C2 counterexample: the unconditional claim fails when the oldest
live header's element is not locally available.  Entry 7 carries one
new-entry header (timestamp 100, header hash 5) in the meta cache and no
delete anywhere, so the merged status is `Live` — yet with the element
absent from vault and cache the cascade falls through to
`dht_get_header` for that header, whose inverted tombstone check returns
`none`, and the whole `get` yields no element for a live entry. -/
theorem dht_get_entry_live_not_local :
    (⟨[(7, ⟨100, 5⟩)], [], [], [], [], [], [], [], []⟩ :
        MetadataBuf).get_dht_status 7 = EntryDhtStatus.Live
    ∧ oldest_live_header
        ⟨[(7, ⟨100, 5⟩)], [], [], [], [], [], [], [], []⟩ 7 = some ⟨100, 5⟩
    ∧ dht_get_entry ⟨fun _ => 0, fun e => e⟩ ⟨[], []⟩
        ⟨[], [], [], [], [], [], [], [], []⟩ ⟨[], []⟩
        ⟨[(7, ⟨100, 5⟩)], [], [], [], [], [], [], [], []⟩
        [] [] 7
      = Except.ok ((⟨[], []⟩,
          ⟨[(7, ⟨100, 5⟩)], [], [], [], [], [], [], [], []⟩), none) := by
  exact ⟨by decide, by decide, rfl⟩

/-- C1: the tombstone short-circuit holds, but the post-fetch logic is
inverted.  With no delete known anywhere and the network returning a
live element for header hash 5, `dht_get_header` consults the network
(flag `true`), merges the element into the cache — yet returns `none`,
while the claim (and the function's own doc comment) requires the
element to be returned exactly when no delete is known. -/
theorem dht_get_header_inverted_tombstone :
    (dht_get_header ⟨fun _ => 5, fun e => e⟩ ⟨[], []⟩
        ⟨[], [], [], [], [], [], [], [], []⟩ ⟨[], []⟩
        ⟨[], [], [], [], [], [], [], [], []⟩
        [GetElementResponse.GetHeader (some ⟨⟨Header.Dna ⟨1, 10, 0⟩, 5, 77⟩, none, none⟩)]
        5).2.1 = none
    ∧ (dht_get_header ⟨fun _ => 5, fun e => e⟩ ⟨[], []⟩
        ⟨[], [], [], [], [], [], [], [], []⟩ ⟨[], []⟩
        ⟨[], [], [], [], [], [], [], [], []⟩
        [GetElementResponse.GetHeader (some ⟨⟨Header.Dna ⟨1, 10, 0⟩, 5, 77⟩, none, none⟩)]
        5).2.2 = true
    ∧ (dht_get_header ⟨fun _ => 5, fun e => e⟩ ⟨[], []⟩
        ⟨[], [], [], [], [], [], [], [], []⟩ ⟨[], []⟩
        ⟨[], [], [], [], [], [], [], [], []⟩
        [GetElementResponse.GetHeader (some ⟨⟨Header.Dna ⟨1, 10, 0⟩, 5, 77⟩, none, none⟩)]
        5).1.1.get_element 5 = some ⟨⟨Header.Dna ⟨1, 10, 0⟩, 5, 77⟩, none⟩
    ∧ (dht_get_header ⟨fun _ => 5, fun e => e⟩ ⟨[], []⟩
        ⟨[], [], [], [], [], [], [], [], []⟩ ⟨[], []⟩
        ⟨[], [], [], [], [], [], [], [], []⟩
        [GetElementResponse.GetHeader (some ⟨⟨Header.Dna ⟨1, 10, 0⟩, 5, 77⟩, none, none⟩)]
        5).1.2.get_deletes_on_header 5 = []
    ∧ (MetadataBuf.mk [] [] [] [] [] [] [] [] []).get_deletes_on_header 5 = [] := by
  exact ⟨rfl, rfl, rfl, rfl, rfl⟩

/-- C10 witness: a freshly authored `Dna` element (whose two ops
reference nothing) integrates to the cache without panicking. -/
theorem integrate_to_cache_total_iff_deps_witness :
    ∃ r, integrate_to_cache ⟨fun _ => 0, fun _ => 0⟩ 0
        ⟨⟨Header.Dna ⟨1, 10, 2⟩, 9, 77⟩, none⟩ ⟨[], []⟩
        ⟨[], [], [], [], [], [], [], [], []⟩
      = Except.ok r := by
  exact (integrate_to_cache_total_iff_deps ⟨fun _ => 0, fun _ => 0⟩ 0
      ⟨⟨Header.Dna ⟨1, 10, 2⟩, 9, 77⟩, none⟩ ⟨[], []⟩
      ⟨[], [], [], [], [], [], [], [], []⟩
      [DhtOp.StoreElement 77 (Header.Dna ⟨1, 10, 2⟩) none,
       DhtOp.RegisterAgentActivity 77 (Header.Dna ⟨1, 10, 2⟩)] rfl).1
    (by decide)

end Holochain
